import Mathlib

/-!
# PACE BMS sniffer (protocol v25): frame decoder

A shallow embedding of `pace_bms_sniffer.cpp`.

* Bytes (`uint8_t`, `char`) are natural numbers; a frame (`std::vector<uint8_t>`)
  is a `List Nat`.
* `frame[k]` is an `Option`-returning read: a read outside the vector yields
  `none`, and every function that reads a frame returns an `Option`.
* `float` values are rationals. The decoder is given in two readings: the exact one,
  in which every `float` operation is the rational operation (the reading of the
  claims that take values "as exact rationals"), and the float32 one
  (`decode_analog_data_fl f32`), in which the result of every `float` operation is
  rounded to binary32. Statements that depend on how the running sum of the cell
  voltages is rounded are made in the float32 reading.
* Fixed-size C arrays are functions on `Fin n`; an index computed at run time is
  turned into a `Fin n` by `arrayIdx`, which yields `none` when it is out of range.
-/

namespace PaceBMSSniffer

/-! ## Constants of the header -/

/-- Modelled from the spec: `FRAME_START` of `pace_bms_sniffer.h`, the start
marker `~` (0x7E). -/
def FRAME_START : Nat := 0x7E

/-- Modelled from the spec: `FRAME_END` of `pace_bms_sniffer.h`, the end marker
carriage return (0x0D). -/
def FRAME_END : Nat := 0x0D

/-- Modelled from the spec: `NUM_PACKS` of `pace_bms_sniffer.h`, 8 pack slots. -/
abbrev NUM_PACKS : Nat := 8

/-- Modelled from the spec: `NUM_CELLS` of `pace_bms_sniffer.h`, 16 cells. -/
abbrev NUM_CELLS : Nat := 16

/-- Modelled from the spec: `NUM_TEMPS` of `pace_bms_sniffer.h`, 6 sensors. -/
abbrev NUM_TEMPS : Nat := 6

/-! ## HexCodec -/

/-- The function `hex_char_to_byte`: the value of one ASCII hex character, `0` for
any other character. -/
def hex_char_to_byte (c : Nat) : Nat :=
  if 48 ≤ c ∧ c ≤ 57 then c - 48
  else if 65 ≤ c ∧ c ≤ 70 then c - 65 + 10
  else if 97 ≤ c ∧ c ≤ 102 then c - 97 + 10
  else 0

/-- The function `parse_hex_word`: `data` is the frame from the pointed-to byte
on; `data[0..3]` are read. The two `uint8_t` locals are reduced modulo `2^8`, the
`uint16_t` result modulo `2^16`. -/
def parse_hex_word (data : List Nat) : Option Nat :=
  data[0]?.bind fun d0 =>
  data[1]?.bind fun d1 =>
  data[2]?.bind fun d2 =>
  data[3]?.bind fun d3 =>
  let low_byte := ((hex_char_to_byte d0 <<< 4) ||| hex_char_to_byte d1) % 256
  let high_byte := ((hex_char_to_byte d2 <<< 4) ||| hex_char_to_byte d3) % 256
  some (((high_byte <<< 8) ||| low_byte) % 65536)

/-! ## Data model -/

/-- Modelled from the spec: the record `PackData` of `pace_bms_sniffer.h` (the
spec's PackMeasurement), with the field names the source uses. The `float` fields
are rationals, the integer fields naturals, the two arrays have the fixed sizes
`NUM_CELLS` and `NUM_TEMPS`. -/
structure PackData where
  cell_voltages : Fin NUM_CELLS → ℚ
  temperatures : Fin NUM_TEMPS → ℚ
  voltage : ℚ
  current : ℚ
  soc : Nat
  soh : Nat
  remaining_cap : ℚ
  full_cap : ℚ
  design_cap : ℚ
  cycles : Nat
  min_cell_v : ℚ
  max_cell_v : ℚ
  avg_cell_v : ℚ
  delta_cell_v : ℚ
  valid : Bool
  last_update : Nat

/-- The slot as it is at system start: every number zero, not valid. -/
def PackData.empty : PackData where
  cell_voltages := fun _ => 0
  temperatures := fun _ => 0
  voltage := 0
  current := 0
  soc := 0
  soh := 0
  remaining_cap := 0
  full_cap := 0
  design_cap := 0
  cycles := 0
  min_cell_v := 0
  max_cell_v := 0
  avg_cell_v := 0
  delta_cell_v := 0
  valid := false
  last_update := 0

/-- What one call of `publish_pack_data` hands to the sensors: the pack index, the
record it read the scalar values from, and the temperatures and cell voltages its
two loops read, in order. -/
structure Publication where
  pack_idx : Nat
  pack : PackData
  temps : List ℚ
  cells : List ℚ

/-- The component's state: the array `pack_data_` (the PackStore) and the trace of
what was published to the sensors so far. -/
structure Sniffer where
  pack_data_ : Fin NUM_PACKS → PackData
  published : List Publication

/-- The state at system start. -/
def Sniffer.init : Sniffer where
  pack_data_ := fun _ => PackData.empty
  published := []

/-- Write to `pack_data_[p]`. -/
def Sniffer.setPack (s : Sniffer) (p : Fin NUM_PACKS) (pack : PackData) : Sniffer :=
  { s with pack_data_ := Function.update s.pack_data_ p pack }

/-- An index into a C array of `n` elements: `none` when it is out of range. -/
def arrayIdx (n i : Nat) : Option (Fin n) :=
  if h : i < n then some ⟨i, h⟩ else none

/-- The loop `for (size_t i = 0; i < n; i++) body`, on an explicit loop state; a
body that fails makes the loop fail. -/
def forLoop {σ : Type} (body : Nat → σ → Option σ) : Nat → σ → Option σ
  | 0, st => some st
  | n + 1, st => (forLoop body n st).bind (body n)

/-! ## Pack statistics and publishing -/

/-- Body of the loop of `calculate_pack_stats`; the state is the pack and `sum`.
Exact reading: `sum += ...` is not rounded, see `stats_body_fl`. -/
def stats_body (i : Nat) (st : PackData × ℚ) : Option (PackData × ℚ) :=
  (arrayIdx NUM_CELLS i).bind fun j =>
  let pack := st.1
  let pack := if pack.cell_voltages j < pack.min_cell_v then
      { pack with min_cell_v := pack.cell_voltages j } else pack
  let pack := if pack.cell_voltages j > pack.max_cell_v then
      { pack with max_cell_v := pack.cell_voltages j } else pack
  some (pack, st.2 + pack.cell_voltages j)

/-- The function `calculate_pack_stats`. Exact reading: the sum, the division and
the subtraction are not rounded, see `calculate_pack_stats_fl`. -/
def calculate_pack_stats (pack_idx : Nat) (s : Sniffer) : Option Sniffer :=
  if pack_idx ≥ NUM_PACKS then some s else
  (arrayIdx NUM_PACKS pack_idx).bind fun p =>
  let pack := s.pack_data_ p
  (arrayIdx NUM_CELLS 0).bind fun z =>
  let pack := { pack with min_cell_v := pack.cell_voltages z }
  let pack := { pack with max_cell_v := pack.cell_voltages z }
  (forLoop stats_body NUM_CELLS (pack, 0)).bind fun st =>
  let pack := st.1
  let sum := st.2
  let pack := { pack with avg_cell_v := sum / (NUM_CELLS : ℚ) }
  let pack := { pack with delta_cell_v := pack.max_cell_v - pack.min_cell_v }
  some (s.setPack p pack)

/-- The function `publish_pack_data`: nothing for an index out of range or a pack
that is not valid; otherwise the values are read and handed to the sensors. -/
def publish_pack_data (pack_idx : Nat) (s : Sniffer) : Option Sniffer :=
  if pack_idx ≥ NUM_PACKS then some s else
  (arrayIdx NUM_PACKS pack_idx).bind fun p =>
  let pack := s.pack_data_ p
  if !pack.valid then some s else
  (forLoop (fun i acc => if i < 6 then
      (arrayIdx NUM_TEMPS i).bind fun j => some (acc ++ [pack.temperatures j])
      else some acc) NUM_TEMPS []).bind fun temps =>
  (forLoop (fun i acc =>
      (arrayIdx NUM_CELLS i).bind fun j => some (acc ++ [pack.cell_voltages j]))
      NUM_CELLS []).bind fun cells =>
  some { s with published := s.published ++ [⟨pack_idx, pack, temps, cells⟩] }

/-! ## AnalogDecoder -/

/-- The frame reads of a debug log line (`ESP_LOGD`): the bytes at the given offsets
are read, in order, and only printed. -/
def log_reads (frame : List Nat) : List Nat → Option Unit
  | [] => some ()
  | k :: ks => frame[k]?.bind fun _ => log_reads frame ks

/-- Body of the cell-voltage loop of `decode_analog_data`; for the first cell the
debug line reads `frame[pos .. pos+3]` once more. -/
def cell_body (frame : List Nat) (pos : Nat) (i : Nat) (pack : PackData) : Option PackData :=
  (parse_hex_word (frame.drop (pos + i * 4))).bind fun raw_mv =>
  (if i = 0 then log_reads frame [pos, pos + 1, pos + 2, pos + 3] else some ()).bind fun _ =>
  (arrayIdx NUM_CELLS i).bind fun j =>
  some { pack with cell_voltages := Function.update pack.cell_voltages j ((raw_mv : ℚ) / 1000) }

/-- Body of the temperature loop of `decode_analog_data`; the state is `pos` and
the pack. -/
def temp_body (frame : List Nat) (i : Nat) (st : Nat × PackData) : Option (Nat × PackData) :=
  let pos := st.1 + 1
  (parse_hex_word (frame.drop pos)).bind fun raw_temp =>
  (arrayIdx NUM_TEMPS i).bind fun j =>
  some (pos + 4,
    { st.2 with temperatures := Function.update st.2.temperatures j ((raw_temp : ℚ) / 100) })

/-- The function `decode_analog_data`; `now` is what `millis()` returns. The result
is the new state and the returned `bool`. `pack_idx` is a `uint8_t`, so
`pack_addr - 1` is taken modulo `2^8`. The frame preview of the debug line reads
`frame[0 .. 9]`. -/
def decode_analog_data (now : Nat) (frame : List Nat) (pack_addr : Nat) (s : Sniffer) :
    Option (Sniffer × Bool) :=
  if frame.length < 50 then some (s, false) else
  let pack_idx := (pack_addr + 255) % 256
  if pack_idx ≥ NUM_PACKS then some (s, false) else
  frame[9]?.bind fun f9 =>
  if f9 ≠ 49 then some (s, false) else
  frame[10]?.bind fun f10 =>
  if f10 ≠ 48 then some (s, false) else
  frame[11]?.bind fun f11 =>
  if f11 ≠ 57 then some (s, false) else
  frame[12]?.bind fun f12 =>
  if f12 ≠ 54 then some (s, false) else
  let pos := 21
  if frame.length < pos + (NUM_CELLS * 4) + (NUM_TEMPS * 5) + 20 then some (s, false) else
  (log_reads frame [0, 1, 2, 3, 4, 5, 6, 7, 8, 9]).bind fun _ =>
  (arrayIdx NUM_PACKS pack_idx).bind fun p =>
  (forLoop (cell_body frame pos) NUM_CELLS (s.pack_data_ p)).bind fun pack =>
  let pos := pos + NUM_CELLS * 4
  (forLoop (temp_body frame) NUM_TEMPS (pos, pack)).bind fun st =>
  let pos := st.1
  let pack := st.2
  if frame.length < pos + 50 then
    let pack := { pack with valid := true }
    (calculate_pack_stats pack_idx (s.setPack p pack)).bind fun s1 =>
    (publish_pack_data pack_idx s1).bind fun s2 =>
    some (s2, true)
  else
  let pos := pos + 4
  (parse_hex_word (frame.drop pos)).bind fun raw_voltage =>
  let pack := { pack with voltage := (raw_voltage : ℚ) / 100 }
  let pos := pos + 4
  (parse_hex_word (frame.drop pos)).bind fun raw_remaining =>
  let pack := { pack with remaining_cap := (raw_remaining : ℚ) / 100 }
  let pos := pos + 4
  (parse_hex_word (frame.drop pos)).bind fun raw_soc_field =>
  let pack := { pack with soc := (raw_soc_field >>> 8) &&& 0xFF }
  let pos := pos + 4
  (parse_hex_word (frame.drop pos)).bind fun raw_cap_field =>
  let pack := { pack with full_cap := (raw_cap_field : ℚ) / 100 }
  let pack := { pack with soh := 100 }
  let pack := { pack with design_cap := 100 }
  let pack := { pack with cycles := 0 }
  let pack := { pack with current := 0 }
  let pack := { pack with valid := true }
  let pack := { pack with last_update := now }
  (calculate_pack_stats pack_idx (s.setPack p pack)).bind fun s1 =>
  (publish_pack_data pack_idx s1).bind fun s2 =>
  some (s2, true)

/-! ## FrameValidator -/

/-- The function `process_frame`; `addr` and `cmd` are `uint8_t`. -/
def process_frame (now : Nat) (frame : List Nat) (s : Sniffer) : Option Sniffer :=
  if frame.length < 15 then some s else
  frame[1]?.bind fun f1 =>
  if f1 ≠ 50 then some s else
  frame[2]?.bind fun f2 =>
  if f2 ≠ 53 then some s else
  frame[3]?.bind fun f3 =>
  frame[4]?.bind fun f4 =>
  let addr := ((hex_char_to_byte f3 <<< 4) ||| hex_char_to_byte f4) % 256
  if addr < 1 ∨ addr > 8 then some s else
  frame[5]?.bind fun f5 =>
  frame[6]?.bind fun f6 =>
  let cmd := ((hex_char_to_byte f5 <<< 4) ||| hex_char_to_byte f6) % 256
  if cmd = 0x46 then
    if frame.length > 10 then
      frame[7]?.bind fun f7 =>
      if f7 = 48 then
        frame[8]?.bind fun f8 =>
        if f8 = 48 then
          (decode_analog_data now frame addr s).map fun r => r.1
        else some s
      else some s
    else some s
  else some s

/-! ## Framer -/

/-- One iteration of the `while` loop of `loop`, for the byte just read. The state
is `rx_buffer_`; the second component is the frame passed to `process_frame` in
this iteration, if any. `MAX_FRAME_SIZE` is a constant of `pace_bms_sniffer.h`. -/
def framer_byte (MAX_FRAME_SIZE : Nat) (rx_buffer : List Nat) (byte : Nat) :
    List Nat × Option (List Nat) :=
  if byte = FRAME_START then ([byte], none)
  else if rx_buffer ≠ [] then
    let buf := rx_buffer ++ [byte]
    let r : List Nat × Option (List Nat) :=
      if byte = FRAME_END then ([], if buf.length > 10 then some buf else none)
      else (buf, none)
    let buf := if r.1.length > MAX_FRAME_SIZE then [] else r.1
    (buf, r.2)
  else (rx_buffer, none)

/-- The `while` loop of `loop` over the bytes available: the final `rx_buffer_` and
the frames passed to `process_frame`, in order. -/
def framer_run (MAX_FRAME_SIZE : Nat) : List Nat → List Nat → List Nat × List (List Nat)
  | rx_buffer, [] => (rx_buffer, [])
  | rx_buffer, byte :: rest =>
    let r := framer_byte MAX_FRAME_SIZE rx_buffer byte
    let q := framer_run MAX_FRAME_SIZE r.1 rest
    (q.1, r.2.toList ++ q.2)

/-- A frame as it travels on the bus: begins with the start marker, ends with the
end marker, neither marker in between, more than 10 and at most `MAX_FRAME_SIZE`
bytes. -/
def ValidFrame (MAX_FRAME_SIZE : Nat) (f : List Nat) : Prop :=
  f.head? = some FRAME_START ∧ f.getLast? = some FRAME_END ∧
  (∀ b ∈ f.tail.dropLast, b ≠ FRAME_START ∧ b ≠ FRAME_END) ∧
  10 < f.length ∧ f.length ≤ MAX_FRAME_SIZE

/-! ## Closed forms used in the statements and proofs -/

/-- The word that `parse_hex_word` computes from four characters. -/
def hexWord (c0 c1 c2 c3 : Nat) : Nat :=
  256 * (16 * hex_char_to_byte c2 + hex_char_to_byte c3) +
    (16 * hex_char_to_byte c0 + hex_char_to_byte c1)

/-- The word at offsets `pos .. pos+3` of a frame, a missing byte read as `0`. -/
def wordAt (frame : List Nat) (pos : Nat) : Nat :=
  hexWord (frame.getD pos 0) (frame.getD (pos + 1) 0) (frame.getD (pos + 2) 0)
    (frame.getD (pos + 3) 0)

/-- The cell voltages that a frame carries: the word at offset `21 + 4 i`, in
thousandths. -/
def cellsOf (frame : List Nat) : Fin NUM_CELLS → ℚ :=
  fun j => (wordAt frame (21 + j.val * 4) : ℚ) / 1000

/-- The temperatures that a frame carries: the word at offset `86 + 5 j`, in
hundredths. -/
def tempsOf (frame : List Nat) : Fin NUM_TEMPS → ℚ :=
  fun j => (wordAt frame (86 + 5 * j.val) : ℚ) / 100

/-- A slot with the four derived statistics replaced: least and greatest cell
voltage as given, the average and the difference computed from them and the cells. -/
def statsPack (pack : PackData) (m M : ℚ) : PackData :=
  { pack with
    min_cell_v := m
    max_cell_v := M
    avg_cell_v := (∑ i : Fin NUM_CELLS, pack.cell_voltages i) / 16
    delta_cell_v := M - m }

/-- The slot after the partial decode of a frame, given the old slot and the least
and greatest cell voltage: cells, temperatures, flag and statistics are new, the
other fields are the old ones. -/
def partialPack (frame : List Nat) (old : PackData) (m M : ℚ) : PackData :=
  statsPack
    { old with
      cell_voltages := cellsOf frame
      temperatures := tempsOf frame
      valid := true } m M

/-- The slot after the full decode of a frame when the clock reads `now`. -/
def fullPack (now : Nat) (frame : List Nat) (old : PackData) (m M : ℚ) : PackData :=
  statsPack
    { old with
      cell_voltages := cellsOf frame
      temperatures := tempsOf frame
      voltage := (wordAt frame 119 : ℚ) / 100
      remaining_cap := (wordAt frame 123 : ℚ) / 100
      soc := (wordAt frame 127 >>> 8) &&& 0xFF
      full_cap := (wordAt frame 131 : ℚ) / 100
      soh := 100
      design_cap := 100
      cycles := 0
      current := 0
      valid := true
      last_update := now } m M

/-- The state after a decode wrote `pack` to slot `p` and published it. -/
def Sniffer.written (s : Sniffer) (p : Fin NUM_PACKS) (pack : PackData)
    (temps cells : List ℚ) : Sniffer where
  pack_data_ := Function.update s.pack_data_ p pack
  published := s.published ++ [⟨p.val, pack, temps, cells⟩]

/-- The frame carries the sub-type tag 1096 at offsets 9 to 12. -/
def HasTag1096 (frame : List Nat) : Prop :=
  frame[9]? = some 49 ∧ frame[10]? = some 48 ∧ frame[11]? = some 57 ∧ frame[12]? = some 54

/-- The address that `process_frame` decodes from bytes 3 and 4 of a frame (a
missing byte read as `0`). -/
def frameAddr (frame : List Nat) : Nat :=
  ((hex_char_to_byte (frame.getD 3 0) <<< 4) ||| hex_char_to_byte (frame.getD 4 0)) % 256

/-- The command that `process_frame` decodes from bytes 5 and 6 of a frame (a
missing byte read as `0`). -/
def frameCmd (frame : List Nat) : Nat :=
  ((hex_char_to_byte (frame.getD 5 0) <<< 4) ||| hex_char_to_byte (frame.getD 6 0)) % 256

/-! ## Sample frames -/

/-- A frame for pack 1: the 21 header bytes (start marker, version 25, address 01,
command 46, response marker 00, tag 1096, eight further characters), 16 cell fields
`cell`, 6 temperature entries (the status character 6 and then `temp`), and the
bytes `ext` after the temperature section. -/
def sampleFrame (cell temp ext : List Nat) : List Nat :=
  [126, 50, 53, 48, 49, 52, 54, 48, 48, 49, 48, 57, 54, 48, 48, 48, 49, 49, 48, 48, 48] ++
    (List.replicate 16 cell).flatten ++ (List.replicate 6 (54 :: temp)).flatten ++ ext

/-- The characters 03E8. -/
def chars03E8 : List Nat := [48, 51, 69, 56]

/-- The characters 0BB8. -/
def chars0BB8 : List Nat := [48, 66, 66, 56]

/-- The extended section of a full frame: padding 0000, the fields A414, 2C13, 2C03
and 0033, 29 further zeros and the end marker; 50 bytes. -/
def sampleExt : List Nat :=
  [48, 48, 48, 48, 65, 52, 49, 52, 50, 67, 49, 51, 50, 67, 48, 51, 48, 48, 51, 51] ++
    List.replicate 29 48 ++ [13]

/-- The full sample frame with the version characters 24 in place of 25. -/
def sampleFrame24 : List Nat :=
  (sampleFrame chars03E8 chars0BB8 sampleExt).set 2 52

/-- The characters E40C, which `parse_hex_word` reads as 0x0CE4 = 3300. -/
def charsE40C : List Nat := [69, 52, 48, 67]

/-- The characters C409, which `parse_hex_word` reads as 0x09C4 = 2500. -/
def charsC409 : List Nat := [67, 52, 48, 57]

/-- A state in which slot 0 already holds pack-level values from an earlier full
decode. -/
def sampleState : Sniffer :=
  Sniffer.init.setPack 0
    { PackData.empty with
      voltage := 5284 / 100
      remaining_cap := 4908 / 100
      soc := 81
      full_cap := 13056 / 100
      soh := 100
      design_cap := 100
      valid := true
      last_update := 3 }

/-- A frame of 135 bytes: cell fields E40C, temperature fields C409, and 20 bytes
after the temperature section, the last one the end marker. -/
def samplePartial : List Nat :=
  sampleFrame charsE40C charsC409 (List.replicate 19 48 ++ [13])

/-- A frame of 115 bytes: cell fields E40C, temperature fields C409, and nothing
after the sixth temperature entry. -/
def sampleTruncated : List Nat :=
  sampleFrame charsE40C charsC409 []

/-- The full sample frame of 165 bytes: cell fields E40C, temperature fields C409,
and the extended section. -/
def sampleFull : List Nat :=
  sampleFrame charsE40C charsC409 sampleExt

/-- A second frame on the bus: the full sample frame with address 02. -/
def sampleFull2 : List Nat :=
  sampleFull.set 4 50

/-! ## The re-encoding of the round-trip property -/

/-- An upper-case hex digit: one of the characters 0 to 9 and A to F. -/
def IsUpperHex (c : Nat) : Prop :=
  (48 ≤ c ∧ c ≤ 57) ∨ (65 ≤ c ∧ c ≤ 70)

/-- The upper-case hex digit of a nibble, as the round-trip property re-encodes it. -/
def encodeNibble (n : Nat) : Nat :=
  if n < 10 then 48 + n else 55 + n

/-- A byte re-encoded as two upper-case hex digits, the high nibble first. -/
def encodeByte (b : Nat) : List Nat :=
  [encodeNibble (b / 16), encodeNibble (b % 16)]

/-- The full sample frame with the characters 00FF in the state-of-charge field at
offsets 127 to 130. -/
def sampleFullSocFF : List Nat :=
  sampleFrame charsE40C charsC409
    ([48, 48, 48, 48, 65, 52, 49, 52, 50, 67, 49, 51, 48, 48, 70, 70, 48, 48, 51, 51] ++
      List.replicate 29 48 ++ [13])

/-- The invariant of `rx_buffer_`: the buffer is empty, or it begins with the start
marker, holds no other start marker and no end marker, and has at most
`MAX_FRAME_SIZE` bytes. -/
def BufferInv (MAX_FRAME_SIZE : Nat) (buf : List Nat) : Prop :=
  buf = [] ∨
  (buf.head? = some FRAME_START ∧ (∀ b ∈ buf.tail, b ≠ FRAME_START ∧ b ≠ FRAME_END) ∧
    buf.length ≤ MAX_FRAME_SIZE)

/-- Bytes before a frame on the bus: a stray character, then a frame that was begun
and not finished. -/
def sampleNoise : List Nat := [48, 13, 126, 50, 53, 48, 49]

/-- The full sample frame with the last character of the full-capacity field, at
offset 134, changed from 3 to 4. -/
def sampleFull134 : List Nat :=
  sampleFull.set 134 52

/-! ## The float32 reading of the decoder

The definitions above read every `float` operation as the exact rational one. The
definitions of this section are the same functions with the result of every `float`
operation passed through a rounding `rnd`: with `rnd := id` they are the definitions
above, with `rnd := f32` they compute what IEEE 754 binary32 arithmetic computes
(round to nearest, ties to even). Every value of the decoder is below `2^11` in
magnitude, so no operation overflows. -/

/-- The power `2^e` for an integer exponent. -/
def pow2 (e : Int) : ℚ :=
  match e with
  | Int.ofNat n => ((2 ^ n : Nat) : ℚ)
  | Int.negSucc n => 1 / ((2 ^ (n + 1) : Nat) : ℚ)

/-- The binary logarithm of a natural number, rounded down, by halving at most
`fuel` times. -/
def log2Fuel : Nat → Nat → Nat
  | 0, _ => 0
  | fuel + 1, n => if n < 2 then 0 else log2Fuel fuel (n / 2) + 1

/-- The binary logarithm of a natural number, rounded down (`0` for `0`). -/
def natLog2 (n : Nat) : Nat := log2Fuel n n

/-- The binary exponent of a rational `x ≠ 0`: the `e` with `2^e ≤ |x| < 2^(e+1)`. -/
def ilog2 (x : ℚ) : Int :=
  let e0 : Int := (natLog2 x.num.natAbs : Int) - (natLog2 x.den : Int)
  if |x| < pow2 e0 then e0 - 1 else e0

/-- The integer nearest to `y`, the even one of the two when `y` is half way. -/
def roundNearestEven (y : ℚ) : Int :=
  let f := ⌊y⌋
  let r := y - (f : ℚ)
  if r < 1 / 2 then f else if 1 / 2 < r then f + 1 else if f % 2 = 0 then f else f + 1

/-- The binary32 value nearest to `x`: 24 significant bits, least exponent `-126`
(below it the spacing stays `2^-149`), ties to even. -/
def f32 (x : ℚ) : ℚ :=
  if x = 0 then 0 else
  let e := max (ilog2 x) (-126)
  let u := pow2 (e - 23)
  (roundNearestEven (x / u) : ℚ) * u

/-- Body of the loop of `calculate_pack_stats`, with `sum += ...` rounded. -/
def stats_body_fl (rnd : ℚ → ℚ) (i : Nat) (st : PackData × ℚ) : Option (PackData × ℚ) :=
  (arrayIdx NUM_CELLS i).bind fun j =>
  let pack := st.1
  let pack := if pack.cell_voltages j < pack.min_cell_v then
      { pack with min_cell_v := pack.cell_voltages j } else pack
  let pack := if pack.cell_voltages j > pack.max_cell_v then
      { pack with max_cell_v := pack.cell_voltages j } else pack
  some (pack, rnd (st.2 + pack.cell_voltages j))

/-- The function `calculate_pack_stats`, with the sum, the division by `NUM_CELLS`
and the subtraction rounded. -/
def calculate_pack_stats_fl (rnd : ℚ → ℚ) (pack_idx : Nat) (s : Sniffer) : Option Sniffer :=
  if pack_idx ≥ NUM_PACKS then some s else
  (arrayIdx NUM_PACKS pack_idx).bind fun p =>
  let pack := s.pack_data_ p
  (arrayIdx NUM_CELLS 0).bind fun z =>
  let pack := { pack with min_cell_v := pack.cell_voltages z }
  let pack := { pack with max_cell_v := pack.cell_voltages z }
  (forLoop (stats_body_fl rnd) NUM_CELLS (pack, 0)).bind fun st =>
  let pack := st.1
  let sum := st.2
  let pack := { pack with avg_cell_v := rnd (sum / (NUM_CELLS : ℚ)) }
  let pack := { pack with delta_cell_v := rnd (pack.max_cell_v - pack.min_cell_v) }
  some (s.setPack p pack)

/-- Body of the cell-voltage loop of `decode_analog_data`, with the division rounded. -/
def cell_body_fl (rnd : ℚ → ℚ) (frame : List Nat) (pos : Nat) (i : Nat) (pack : PackData) :
    Option PackData :=
  (parse_hex_word (frame.drop (pos + i * 4))).bind fun raw_mv =>
  (if i = 0 then log_reads frame [pos, pos + 1, pos + 2, pos + 3] else some ()).bind fun _ =>
  (arrayIdx NUM_CELLS i).bind fun j =>
  some { pack with
    cell_voltages := Function.update pack.cell_voltages j (rnd ((raw_mv : ℚ) / 1000)) }

/-- Body of the temperature loop of `decode_analog_data`, with the division rounded. -/
def temp_body_fl (rnd : ℚ → ℚ) (frame : List Nat) (i : Nat) (st : Nat × PackData) :
    Option (Nat × PackData) :=
  let pos := st.1 + 1
  (parse_hex_word (frame.drop pos)).bind fun raw_temp =>
  (arrayIdx NUM_TEMPS i).bind fun j =>
  some (pos + 4,
    { st.2 with
      temperatures := Function.update st.2.temperatures j (rnd ((raw_temp : ℚ) / 100)) })

/-- The function `decode_analog_data`, with every `float` division rounded and the
statistics computed by `calculate_pack_stats_fl`. -/
def decode_analog_data_fl (rnd : ℚ → ℚ) (now : Nat) (frame : List Nat) (pack_addr : Nat)
    (s : Sniffer) : Option (Sniffer × Bool) :=
  if frame.length < 50 then some (s, false) else
  let pack_idx := (pack_addr + 255) % 256
  if pack_idx ≥ NUM_PACKS then some (s, false) else
  frame[9]?.bind fun f9 =>
  if f9 ≠ 49 then some (s, false) else
  frame[10]?.bind fun f10 =>
  if f10 ≠ 48 then some (s, false) else
  frame[11]?.bind fun f11 =>
  if f11 ≠ 57 then some (s, false) else
  frame[12]?.bind fun f12 =>
  if f12 ≠ 54 then some (s, false) else
  let pos := 21
  if frame.length < pos + (NUM_CELLS * 4) + (NUM_TEMPS * 5) + 20 then some (s, false) else
  (log_reads frame [0, 1, 2, 3, 4, 5, 6, 7, 8, 9]).bind fun _ =>
  (arrayIdx NUM_PACKS pack_idx).bind fun p =>
  (forLoop (cell_body_fl rnd frame pos) NUM_CELLS (s.pack_data_ p)).bind fun pack =>
  let pos := pos + NUM_CELLS * 4
  (forLoop (temp_body_fl rnd frame) NUM_TEMPS (pos, pack)).bind fun st =>
  let pos := st.1
  let pack := st.2
  if frame.length < pos + 50 then
    let pack := { pack with valid := true }
    (calculate_pack_stats_fl rnd pack_idx (s.setPack p pack)).bind fun s1 =>
    (publish_pack_data pack_idx s1).bind fun s2 =>
    some (s2, true)
  else
  let pos := pos + 4
  (parse_hex_word (frame.drop pos)).bind fun raw_voltage =>
  let pack := { pack with voltage := rnd ((raw_voltage : ℚ) / 100) }
  let pos := pos + 4
  (parse_hex_word (frame.drop pos)).bind fun raw_remaining =>
  let pack := { pack with remaining_cap := rnd ((raw_remaining : ℚ) / 100) }
  let pos := pos + 4
  (parse_hex_word (frame.drop pos)).bind fun raw_soc_field =>
  let pack := { pack with soc := (raw_soc_field >>> 8) &&& 0xFF }
  let pos := pos + 4
  (parse_hex_word (frame.drop pos)).bind fun raw_cap_field =>
  let pack := { pack with full_cap := rnd ((raw_cap_field : ℚ) / 100) }
  let pack := { pack with soh := 100 }
  let pack := { pack with design_cap := 100 }
  let pack := { pack with cycles := 0 }
  let pack := { pack with current := 0 }
  let pack := { pack with valid := true }
  let pack := { pack with last_update := now }
  (calculate_pack_stats_fl rnd pack_idx (s.setPack p pack)).bind fun s1 =>
  (publish_pack_data pack_idx s1).bind fun s2 =>
  some (s2, true)

/-- The running sum `sum += cell_voltages[i]` after `n` cells, each addition
rounded. -/
def runningSum (rnd : ℚ → ℚ) (cells : Fin NUM_CELLS → ℚ) : Nat → ℚ
  | 0 => 0
  | n + 1 =>
    if h : n < NUM_CELLS then rnd (runningSum rnd cells n + cells ⟨n, h⟩)
    else runningSum rnd cells n

/-- A slot with the four derived statistics replaced as `calculate_pack_stats_fl`
computes them, given the least and greatest cell voltage. -/
def statsPack_fl (rnd : ℚ → ℚ) (pack : PackData) (m M : ℚ) : PackData :=
  { pack with
    min_cell_v := m
    max_cell_v := M
    avg_cell_v := rnd (runningSum rnd pack.cell_voltages NUM_CELLS / 16)
    delta_cell_v := rnd (M - m) }

/-- The cell voltages that a frame carries, each division rounded. -/
def cellsOf_fl (rnd : ℚ → ℚ) (frame : List Nat) : Fin NUM_CELLS → ℚ :=
  fun j => rnd ((wordAt frame (21 + j.val * 4) : ℚ) / 1000)

/-- The temperatures that a frame carries, each division rounded. -/
def tempsOf_fl (rnd : ℚ → ℚ) (frame : List Nat) : Fin NUM_TEMPS → ℚ :=
  fun j => rnd ((wordAt frame (86 + 5 * j.val) : ℚ) / 100)

/-! ## Lemmas on the HexCodec -/

theorem hex_char_to_byte_lt (c : Nat) : hex_char_to_byte c < 16 := by
  unfold hex_char_to_byte
  split_ifs <;> omega

theorem nibble_pair (a b : Nat) (hb : b < 16) : ((a <<< 4) ||| b) = 16 * a + b := by
  have h := Nat.mul_add_lt_is_or (i := 4) (b := b) (by simpa using hb) a
  rw [Nat.shiftLeft_eq, Nat.mul_comm a]
  simpa using h.symm

theorem byte_pair (h l : Nat) (hl : l < 256) : ((h <<< 8) ||| l) = 256 * h + l := by
  have h2 := Nat.mul_add_lt_is_or (i := 8) (b := l) (by simpa using hl) h
  rw [Nat.shiftLeft_eq, Nat.mul_comm h]
  simpa using h2.symm

theorem hexWord_lt (c0 c1 c2 c3 : Nat) : hexWord c0 c1 c2 c3 < 65536 := by
  have h0 := hex_char_to_byte_lt c0
  have h1 := hex_char_to_byte_lt c1
  have h2 := hex_char_to_byte_lt c2
  have h3 := hex_char_to_byte_lt c3
  unfold hexWord
  omega

theorem word_arith (c0 c1 c2 c3 : Nat) :
    (((((hex_char_to_byte c2 <<< 4) ||| hex_char_to_byte c3) % 256) <<< 8) |||
      ((hex_char_to_byte c0 <<< 4) ||| hex_char_to_byte c1) % 256) % 65536
      = hexWord c0 c1 c2 c3 := by
  have h0 := hex_char_to_byte_lt c0
  have h1 := hex_char_to_byte_lt c1
  have h2 := hex_char_to_byte_lt c2
  have h3 := hex_char_to_byte_lt c3
  rw [nibble_pair _ _ h1, nibble_pair _ _ h3]
  rw [byte_pair _ _ (Nat.mod_lt _ (by decide))]
  unfold hexWord
  omega

theorem getElem?_getD_of_lt (frame : List Nat) (k : Nat) (h : k < frame.length) :
    frame[k]? = some (frame.getD k 0) := by
  simp [List.getD_eq_getElem?_getD, List.getElem?_eq_getElem h]

theorem parse_hex_word_four (c0 c1 c2 c3 : Nat) (rest : List Nat) :
    parse_hex_word (c0 :: c1 :: c2 :: c3 :: rest) = some (hexWord c0 c1 c2 c3) := by
  simp only [parse_hex_word, List.getElem?_cons_zero, List.getElem?_cons_succ, Option.bind_eq_bind,
    Option.some_bind, word_arith]

theorem parse_hex_word_drop (frame : List Nat) (pos : Nat) (h : pos + 4 ≤ frame.length) :
    parse_hex_word (frame.drop pos) = some (wordAt frame pos) := by
  unfold parse_hex_word wordAt
  simp only [List.getElem?_drop]
  rw [getElem?_getD_of_lt frame (pos + 0) (by omega), getElem?_getD_of_lt frame (pos + 1) (by omega),
    getElem?_getD_of_lt frame (pos + 2) (by omega), getElem?_getD_of_lt frame (pos + 3) (by omega)]
  simp only [Nat.add_zero, Option.some_bind, word_arith]

theorem parse_hex_word_slice (frame : List Nat) (pos : Nat) (h : pos + 4 ≤ frame.length) :
    parse_hex_word ((frame.drop pos).take 4) = some (wordAt frame pos) := by
  unfold parse_hex_word wordAt
  simp only [List.getElem?_take, List.getElem?_drop]
  rw [getElem?_getD_of_lt frame (pos + 0) (by omega), getElem?_getD_of_lt frame (pos + 1) (by omega),
    getElem?_getD_of_lt frame (pos + 2) (by omega), getElem?_getD_of_lt frame (pos + 3) (by omega)]
  simp [word_arith]

/-! ## Lemmas on the loops -/

theorem arrayIdx_of_lt (n i : Nat) (h : i < n) : arrayIdx n i = some ⟨i, h⟩ := by
  simp [arrayIdx, h]

theorem forLoop_isSome {σ : Type} (body : Nat → σ → Option σ) (n : Nat)
    (hb : ∀ i, i < n → ∀ st, (body i st).isSome = true) (st : σ) :
    (forLoop body n st).isSome = true := by
  induction n with
  | zero => simp [forLoop]
  | succ k ih =>
    have h1 := ih (fun i hi => hb i (Nat.lt_succ_of_lt hi))
    obtain ⟨x, hx⟩ := Option.isSome_iff_exists.mp h1
    simp only [forLoop, hx, Option.some_bind]
    exact hb k (Nat.lt_succ_self k) x

theorem log_reads_some (frame : List Nat) (ks : List Nat)
    (h : ∀ k ∈ ks, k < frame.length) : log_reads frame ks = some () := by
  induction ks with
  | nil => rfl
  | cons k ks ih =>
    have hk := h k (List.mem_cons_self _ _)
    simp only [log_reads, getElem?_getD_of_lt frame k hk, Option.some_bind]
    exact ih (fun x hx => h x (List.mem_cons_of_mem _ hx))

theorem forLoop_cells (frame : List Nat) (pos : Nat) (pack : PackData) (n : Nat)
    (hn : n ≤ NUM_CELLS) (hlen : pos + 4 * n ≤ frame.length) :
    forLoop (cell_body frame pos) n pack =
      some { pack with cell_voltages := fun j =>
        if j.val < n then (wordAt frame (pos + j.val * 4) : ℚ) / 1000
        else (pack.cell_voltages j) } := by
  induction n with
  | zero => simp [forLoop]
  | succ k ih =>
    have hk : k < NUM_CELLS := hn
    have hlog : (if k = 0 then log_reads frame [pos, pos + 1, pos + 2, pos + 3] else some ()) =
        some () := by
      split_ifs
      · exact log_reads_some frame _ (by
          intro x hx
          simp only [List.mem_cons, List.mem_singleton, List.not_mem_nil, or_false] at hx
          omega)
      · rfl
    simp only [forLoop, ih (Nat.le_of_lt hk) (by omega), Option.some_bind, cell_body,
      parse_hex_word_drop frame (pos + k * 4) (by omega), arrayIdx_of_lt _ _ hk, hlog]
    congr 2
    funext j
    by_cases hj : j = ⟨k, hk⟩
    · subst hj
      simp
    · have hne : j.val ≠ k := fun h => hj (Fin.ext h)
      rw [Function.update_noteq hj]
      by_cases hlt : j.val < k
      · simp [hlt, Nat.lt_succ_of_lt hlt]
      · have : ¬ j.val < k + 1 := by omega
        simp [hlt, this]

theorem forLoop_temps (frame : List Nat) (pos : Nat) (pack : PackData) (n : Nat)
    (hn : n ≤ NUM_TEMPS) (hlen : pos + 5 * n ≤ frame.length) :
    forLoop (temp_body frame) n (pos, pack) =
      some (pos + 5 * n, ({ pack with temperatures := fun j =>
        if j.val < n then (wordAt frame (pos + 1 + 5 * j.val) : ℚ) / 100
        else (pack.temperatures j) } : PackData)) := by
  induction n with
  | zero => simp [forLoop]
  | succ k ih =>
    have hk : k < NUM_TEMPS := hn
    simp only [forLoop, ih (Nat.le_of_lt hk) (by omega), Option.some_bind, temp_body,
      parse_hex_word_drop frame (pos + 5 * k + 1) (by omega), arrayIdx_of_lt _ _ hk]
    refine congrArg some (Prod.ext (by simp only []; omega) ?_)
    · simp only []
      congr 1
      funext j
      by_cases hj : j = ⟨k, hk⟩
      · subst hj
        have : pos + 5 * k + 1 = pos + 1 + 5 * k := by omega
        simp [this]
      · have hne : j.val ≠ k := fun h => hj (Fin.ext h)
        rw [Function.update_noteq hj]
        by_cases hlt : j.val < k
        · simp [hlt, Nat.lt_succ_of_lt hlt]
        · have : ¬ j.val < k + 1 := by omega
          simp [hlt, this]

/-! ## Lemmas on the pack statistics -/

theorem sum_below_succ (cells : Fin NUM_CELLS → ℚ) (k : Nat) (hk : k < NUM_CELLS) :
    (∑ i : Fin NUM_CELLS, if i.val < k + 1 then cells i else 0) =
      (∑ i : Fin NUM_CELLS, if i.val < k then cells i else 0) + cells ⟨k, hk⟩ := by
  have h : ∀ i : Fin NUM_CELLS, (if i.val < k + 1 then cells i else 0) =
      (if i.val < k then cells i else 0) + (if i = ⟨k, hk⟩ then cells i else 0) := by
    intro i
    by_cases h1 : i.val < k
    · have h2 : i ≠ ⟨k, hk⟩ := fun h => by rw [h] at h1; exact Nat.lt_irrefl _ h1
      simp [h1, Nat.lt_succ_of_lt h1, h2]
    · by_cases h2 : i = ⟨k, hk⟩
      · subst h2
        simp
      · have h3 : ¬ i.val < k + 1 := fun h => h2 (Fin.ext (by show i.val = k; omega))
        simp [h1, h2, h3]
  simp only [h, Finset.sum_add_distrib, Finset.sum_ite_eq', Finset.mem_univ, if_true]

theorem forLoop_stats (pack : PackData) (sum : ℚ) (n : Nat) (hn : n ≤ NUM_CELLS) :
    ∃ m M : ℚ,
      forLoop stats_body n (pack, sum) =
        some ({ pack with min_cell_v := m, max_cell_v := M },
          sum + ∑ i : Fin NUM_CELLS, if i.val < n then pack.cell_voltages i else 0) ∧
      m ≤ pack.min_cell_v ∧ (∀ i : Fin NUM_CELLS, i.val < n → m ≤ pack.cell_voltages i) ∧
      (m = pack.min_cell_v ∨ ∃ i : Fin NUM_CELLS, i.val < n ∧ m = pack.cell_voltages i) ∧
      pack.max_cell_v ≤ M ∧ (∀ i : Fin NUM_CELLS, i.val < n → pack.cell_voltages i ≤ M) ∧
      (M = pack.max_cell_v ∨ ∃ i : Fin NUM_CELLS, i.val < n ∧ M = pack.cell_voltages i) := by
  induction n with
  | zero =>
    refine ⟨pack.min_cell_v, pack.max_cell_v, ?_, le_refl _, ?_, Or.inl rfl, le_refl _, ?_,
      Or.inl rfl⟩
    · simp [forLoop]
    · intro i hi
      exact absurd hi (Nat.not_lt_zero _)
    · intro i hi
      exact absurd hi (Nat.not_lt_zero _)
  | succ k ih =>
    have hk : k < NUM_CELLS := hn
    obtain ⟨m, M, hrun, hm1, hm2, hm3, hM1, hM2, hM3⟩ := ih (Nat.le_of_lt hk)
    set c := pack.cell_voltages ⟨k, hk⟩ with hc
    refine ⟨if c < m then c else m, if c > M then c else M, ?_, ?_, ?_, ?_, ?_, ?_, ?_⟩
    · simp only [forLoop, hrun, Option.some_bind, stats_body, arrayIdx_of_lt _ _ hk]
      rw [sum_below_succ _ k hk]
      refine congrArg some (Prod.ext ?_ ?_)
      · simp only [← hc]
        by_cases h1 : c < m <;> by_cases h2 : c > M <;> simp [h1, h2]
      · simp only [← hc]
        by_cases h1 : c < m <;> by_cases h2 : c > M <;> simp [h1, h2, add_assoc]
    · by_cases h1 : c < m
      · simp only [h1, if_true]
        exact le_trans (le_of_lt h1) hm1
      · simpa [h1] using hm1
    · intro i hi
      by_cases hik : i.val < k
      · have := hm2 i hik
        by_cases h1 : c < m
        · simp only [h1, if_true]
          exact le_trans (le_of_lt h1) this
        · simpa [h1] using this
      · have hi2 : i = ⟨k, hk⟩ := Fin.ext (by show i.val = k; omega)
        rw [hi2, ← hc]
        by_cases h1 : c < m
        · simp [h1]
        · simpa [h1] using not_lt.mp h1
    · by_cases h1 : c < m
      · exact Or.inr ⟨⟨k, hk⟩, Nat.lt_succ_self k, by simp [h1, hc]⟩
      · simp only [h1, if_false]
        rcases hm3 with h | ⟨i, hi, h⟩
        · exact Or.inl h
        · exact Or.inr ⟨i, Nat.lt_succ_of_lt hi, h⟩
    · by_cases h1 : c > M
      · simp only [h1, if_true]
        exact le_trans hM1 (le_of_lt h1)
      · simpa [h1] using hM1
    · intro i hi
      by_cases hik : i.val < k
      · have := hM2 i hik
        by_cases h1 : c > M
        · simp only [h1, if_true]
          exact le_trans this (le_of_lt h1)
        · simpa [h1] using this
      · have hi2 : i = ⟨k, hk⟩ := Fin.ext (by show i.val = k; omega)
        rw [hi2, ← hc]
        by_cases h1 : c > M
        · simp [h1]
        · simpa [h1] using not_lt.mp h1
    · by_cases h1 : c > M
      · exact Or.inr ⟨⟨k, hk⟩, Nat.lt_succ_self k, by simp [h1, hc]⟩
      · simp only [h1, if_false]
        rcases hM3 with h | ⟨i, hi, h⟩
        · exact Or.inl h
        · exact Or.inr ⟨i, Nat.lt_succ_of_lt hi, h⟩

theorem calculate_pack_stats_eq (idx : Nat) (h : idx < NUM_PACKS) (s : Sniffer) :
    ∃ m M : ℚ,
      calculate_pack_stats idx s =
        some (s.setPack ⟨idx, h⟩ { s.pack_data_ ⟨idx, h⟩ with
          min_cell_v := m, max_cell_v := M,
          avg_cell_v := (∑ i : Fin NUM_CELLS, (s.pack_data_ ⟨idx, h⟩).cell_voltages i) / 16,
          delta_cell_v := M - m }) ∧
      (∀ i, m ≤ (s.pack_data_ ⟨idx, h⟩).cell_voltages i) ∧
      (∃ i, m = (s.pack_data_ ⟨idx, h⟩).cell_voltages i) ∧
      (∀ i, (s.pack_data_ ⟨idx, h⟩).cell_voltages i ≤ M) ∧
      (∃ i, M = (s.pack_data_ ⟨idx, h⟩).cell_voltages i) := by
  have h0 : 0 < NUM_CELLS := by decide
  obtain ⟨m, M, hrun, -, hm2, hm3, -, hM2, hM3⟩ :=
    forLoop_stats { s.pack_data_ ⟨idx, h⟩ with
      min_cell_v := (s.pack_data_ ⟨idx, h⟩).cell_voltages ⟨0, h0⟩,
      max_cell_v := (s.pack_data_ ⟨idx, h⟩).cell_voltages ⟨0, h0⟩ } 0 NUM_CELLS (le_refl _)
  refine ⟨m, M, ?_, fun i => hm2 i i.isLt, ?_, fun i => hM2 i i.isLt, ?_⟩
  · have hs : (∑ i : Fin NUM_CELLS,
        if i.val < NUM_CELLS then (s.pack_data_ ⟨idx, h⟩).cell_voltages i else 0) =
        ∑ i : Fin NUM_CELLS, (s.pack_data_ ⟨idx, h⟩).cell_voltages i :=
      Finset.sum_congr rfl (fun i _ => by simp [i.isLt])
    simp only [hs, zero_add] at hrun
    simp only [calculate_pack_stats, ge_iff_le, Nat.not_le.mpr h, if_false, arrayIdx_of_lt _ _ h,
      Option.some_bind, arrayIdx_of_lt _ _ h0, hrun]
    simp
  · rcases hm3 with h1 | ⟨i, -, h1⟩
    · exact ⟨⟨0, h0⟩, h1⟩
    · exact ⟨i, h1⟩
  · rcases hM3 with h1 | ⟨i, -, h1⟩
    · exact ⟨⟨0, h0⟩, h1⟩
    · exact ⟨i, h1⟩

theorem publish_pack_data_valid (idx : Nat) (h : idx < NUM_PACKS) (s : Sniffer)
    (hv : (s.pack_data_ ⟨idx, h⟩).valid = true) :
    ∃ temps cells, publish_pack_data idx s =
      some { s with published := s.published ++ [⟨idx, s.pack_data_ ⟨idx, h⟩, temps, cells⟩] } := by
  have h1 := forLoop_isSome (fun i (acc : List ℚ) => if i < 6 then
      (arrayIdx NUM_TEMPS i).bind fun j => some (acc ++ [(s.pack_data_ ⟨idx, h⟩).temperatures j])
      else some acc) NUM_TEMPS (by
        intro i hi st
        have h6 : i < 6 := hi
        simp [arrayIdx_of_lt _ _ hi, h6]) []
  have h2 := forLoop_isSome (fun i (acc : List ℚ) =>
      (arrayIdx NUM_CELLS i).bind fun j => some (acc ++ [(s.pack_data_ ⟨idx, h⟩).cell_voltages j]))
      NUM_CELLS (by
        intro i hi st
        simp [arrayIdx_of_lt _ _ hi]) []
  obtain ⟨temps, ht⟩ := Option.isSome_iff_exists.mp h1
  obtain ⟨cells, hc⟩ := Option.isSome_iff_exists.mp h2
  refine ⟨temps, cells, ?_⟩
  simp only [publish_pack_data, ge_iff_le, Nat.not_le.mpr h, if_false, arrayIdx_of_lt _ _ h,
    Option.some_bind, hv, ht, hc]
  simp

/-! ## Lemmas on the decoder -/

theorem forLoop_cells_all (frame : List Nat) (pack : PackData) (hlen : 85 ≤ frame.length) :
    forLoop (cell_body frame 21) NUM_CELLS pack =
      some { pack with cell_voltages := cellsOf frame } := by
  rw [forLoop_cells frame 21 pack NUM_CELLS (le_refl _) (by simpa using hlen)]
  congr 2
  funext j
  simp [cellsOf, j.isLt]

theorem forLoop_temps_all (frame : List Nat) (pack : PackData) (hlen : 115 ≤ frame.length) :
    forLoop (temp_body frame) NUM_TEMPS (85, pack) =
      some (115, ({ pack with temperatures := tempsOf frame } : PackData)) := by
  rw [forLoop_temps frame 85 pack NUM_TEMPS (le_refl _) (by simpa using hlen)]
  refine congrArg some (Prod.ext rfl ?_)
  simp only []
  congr 1
  funext j
  simp [tempsOf, j.isLt]

theorem decode_reject (now : Nat) (frame : List Nat) (a : Nat) (s : Sniffer)
    (h : frame.length < 135 ∨ NUM_PACKS ≤ (a + 255) % 256 ∨ ¬ HasTag1096 frame) :
    decode_analog_data now frame a s = some (s, false) := by
  unfold decode_analog_data
  by_cases h50 : frame.length < 50
  · simp [h50]
  have h50' : 50 ≤ frame.length := Nat.le_of_not_lt h50
  by_cases hidx : (a + 255) % 256 ≥ NUM_PACKS
  · simp [h50, hidx]
  have e9 := getElem?_getD_of_lt frame 9 (by omega)
  have e10 := getElem?_getD_of_lt frame 10 (by omega)
  have e11 := getElem?_getD_of_lt frame 11 (by omega)
  have e12 := getElem?_getD_of_lt frame 12 (by omega)
  simp only [h50, hidx, if_false, e9, e10, e11, e12, Option.some_bind]
  by_cases h9 : frame.getD 9 0 ≠ 49
  · rw [if_pos h9]
  rw [if_neg h9]
  by_cases h10 : frame.getD 10 0 ≠ 48
  · rw [if_pos h10]
  rw [if_neg h10]
  by_cases h11 : frame.getD 11 0 ≠ 57
  · rw [if_pos h11]
  rw [if_neg h11]
  by_cases h12 : frame.getD 12 0 ≠ 54
  · rw [if_pos h12]
  rw [if_neg h12]
  by_cases hl : frame.length < 21 + NUM_CELLS * 4 + NUM_TEMPS * 5 + 20
  · rw [if_pos hl]
  exfalso
  rcases h with h | h | h
  · exact hl (by simpa using h)
  · exact hidx h
  · apply h
    simp only [ne_eq, not_not] at h9 h10 h11 h12
    exact ⟨by rw [e9, h9], by rw [e10, h10], by rw [e11, h11], by rw [e12, h12]⟩

theorem decode_accept (now : Nat) (frame : List Nat) (a : Nat) (s : Sniffer)
    (hlen : 135 ≤ frame.length) (hidx : (a + 255) % 256 < NUM_PACKS) (htag : HasTag1096 frame) :
    decode_analog_data now frame a s =
      if frame.length < 165 then
        (calculate_pack_stats ((a + 255) % 256) (s.setPack ⟨(a + 255) % 256, hidx⟩
          { s.pack_data_ ⟨(a + 255) % 256, hidx⟩ with
            cell_voltages := cellsOf frame, temperatures := tempsOf frame,
            valid := true })).bind fun s1 =>
        (publish_pack_data ((a + 255) % 256) s1).bind fun s2 => some (s2, true)
      else
        (calculate_pack_stats ((a + 255) % 256) (s.setPack ⟨(a + 255) % 256, hidx⟩
          { s.pack_data_ ⟨(a + 255) % 256, hidx⟩ with
            cell_voltages := cellsOf frame, temperatures := tempsOf frame,
            voltage := (wordAt frame 119 : ℚ) / 100
            remaining_cap := (wordAt frame 123 : ℚ) / 100
            soc := (wordAt frame 127 >>> 8) &&& 0xFF
            full_cap := (wordAt frame 131 : ℚ) / 100
            soh := 100, design_cap := 100, cycles := 0, current := 0,
            valid := true, last_update := now })).bind fun s1 =>
        (publish_pack_data ((a + 255) % 256) s1).bind fun s2 => some (s2, true) := by
  obtain ⟨t9, t10, t11, t12⟩ := htag
  have h50 : ¬ frame.length < 50 := by omega
  have hl : ¬ frame.length < 21 + NUM_CELLS * 4 + NUM_TEMPS * 5 + 20 := by
    simp only [NUM_CELLS, NUM_TEMPS]; omega
  have hp : 21 + NUM_CELLS * 4 = 85 := rfl
  have hlog : log_reads frame [0, 1, 2, 3, 4, 5, 6, 7, 8, 9] = some () :=
    log_reads_some frame _ (by
      intro x hx
      simp only [List.mem_cons, List.mem_singleton, List.not_mem_nil, or_false] at hx
      omega)
  have hl2 : ¬ frame.length < 85 + NUM_TEMPS * 5 + 20 := hl
  unfold decode_analog_data
  simp only [h50, if_false, ge_iff_le, Nat.not_le.mpr hidx, t9, t10, t11, t12, Option.some_bind,
    ne_eq, not_true_eq_false, hl2, hlog, arrayIdx_of_lt _ _ hidx, hp,
    forLoop_cells_all frame _ (by omega : 85 ≤ frame.length),
    forLoop_temps_all frame _ (by omega : 115 ≤ frame.length)]
  by_cases h165 : frame.length < 165
  · have : frame.length < 115 + 50 := h165
    simp only [this, h165, if_true]
  · have h2 : ¬ frame.length < 115 + 50 := h165
    simp only [h2, h165, if_false,
      parse_hex_word_drop frame (115 + 4) (by omega),
      parse_hex_word_drop frame (115 + 4 + 4) (by omega),
      parse_hex_word_drop frame (115 + 4 + 4 + 4) (by omega),
      parse_hex_word_drop frame (115 + 4 + 4 + 4 + 4) (by omega), Option.some_bind,
      Nat.reduceAdd]

theorem setPack_get (s : Sniffer) (p : Fin NUM_PACKS) (pack : PackData) :
    (s.setPack p pack).pack_data_ p = pack := by
  simp [Sniffer.setPack]

theorem setPack_setPack (s : Sniffer) (p : Fin NUM_PACKS) (x y : PackData) :
    (s.setPack p x).setPack p y = s.setPack p y := by
  simp [Sniffer.setPack]

/-- Statistics and publication after the slot `idx` was written with a valid pack. -/
theorem stats_publish_eq (idx : Nat) (h : idx < NUM_PACKS) (s : Sniffer) (pack : PackData)
    (hv : pack.valid = true) :
    ∃ (m M : ℚ) (temps cells : List ℚ),
      ((calculate_pack_stats idx (s.setPack ⟨idx, h⟩ pack)).bind fun s1 =>
        (publish_pack_data idx s1).bind fun s2 => some (s2, true)) =
        some (s.written ⟨idx, h⟩ (statsPack pack m M) temps cells, true) ∧
      (∀ i, m ≤ pack.cell_voltages i) ∧ (∃ i, m = pack.cell_voltages i) ∧
      (∀ i, pack.cell_voltages i ≤ M) ∧ (∃ i, M = pack.cell_voltages i) := by
  obtain ⟨m, M, hc, h1, h2, h3, h4⟩ := calculate_pack_stats_eq idx h (s.setPack ⟨idx, h⟩ pack)
  rw [setPack_get] at hc h1 h2 h3 h4
  rw [setPack_setPack] at hc
  have hc2 : calculate_pack_stats idx (s.setPack ⟨idx, h⟩ pack) =
      some (s.setPack ⟨idx, h⟩ (statsPack pack m M)) := hc
  obtain ⟨temps, cells, hp⟩ := publish_pack_data_valid idx h
    (s.setPack ⟨idx, h⟩ (statsPack pack m M)) (by rw [setPack_get]; exact hv)
  rw [setPack_get] at hp
  refine ⟨m, M, temps, cells, ?_, h1, h2, h3, h4⟩
  rw [hc2, Option.some_bind, hp, Option.some_bind]
  rfl

theorem decode_partial_eq (now : Nat) (frame : List Nat) (a : Nat) (s : Sniffer)
    (hlen : 135 ≤ frame.length) (h165 : frame.length < 165)
    (hidx : (a + 255) % 256 < NUM_PACKS) (htag : HasTag1096 frame) :
    ∃ (m M : ℚ) (temps cells : List ℚ),
      decode_analog_data now frame a s =
        some (s.written ⟨(a + 255) % 256, hidx⟩
          (partialPack frame (s.pack_data_ ⟨(a + 255) % 256, hidx⟩) m M) temps cells, true) ∧
      (∀ i, m ≤ cellsOf frame i) ∧ (∃ i, m = cellsOf frame i) ∧
      (∀ i, cellsOf frame i ≤ M) ∧ (∃ i, M = cellsOf frame i) := by
  rw [decode_accept now frame a s hlen hidx htag, if_pos h165]
  exact stats_publish_eq _ hidx s _ rfl

theorem decode_full_eq (now : Nat) (frame : List Nat) (a : Nat) (s : Sniffer)
    (h165 : 165 ≤ frame.length)
    (hidx : (a + 255) % 256 < NUM_PACKS) (htag : HasTag1096 frame) :
    ∃ (m M : ℚ) (temps cells : List ℚ),
      decode_analog_data now frame a s =
        some (s.written ⟨(a + 255) % 256, hidx⟩
          (fullPack now frame (s.pack_data_ ⟨(a + 255) % 256, hidx⟩) m M) temps cells, true) ∧
      (∀ i, m ≤ cellsOf frame i) ∧ (∃ i, m = cellsOf frame i) ∧
      (∀ i, cellsOf frame i ≤ M) ∧ (∃ i, M = cellsOf frame i) := by
  rw [decode_accept now frame a s (by omega) hidx htag, if_neg (by omega)]
  exact stats_publish_eq _ hidx s _ rfl

theorem idx_fin_eq (a : Nat) (h1 : 1 ≤ a) (h8 : a ≤ 8) (p : Fin NUM_PACKS) (hp : p.val = a - 1)
    (hidx : (a + 255) % 256 < NUM_PACKS) : (⟨(a + 255) % 256, hidx⟩ : Fin NUM_PACKS) = p := by
  apply Fin.ext
  show (a + 255) % 256 = p.val
  omega

theorem written_get (s : Sniffer) (p : Fin NUM_PACKS) (pack : PackData) (temps cells : List ℚ) :
    (s.written p pack temps cells).pack_data_ p = pack := by
  simp [Sniffer.written]

/-- A decode that returns `true` had a frame of at least 135 bytes with the tag. -/
theorem decode_true_inv (now : Nat) (frame : List Nat) (a : Nat) (s : Sniffer)
    (h : (decode_analog_data now frame a s).map Prod.snd = some true) :
    135 ≤ frame.length ∧ (a + 255) % 256 < NUM_PACKS ∧ HasTag1096 frame := by
  by_contra hc
  have hr : frame.length < 135 ∨ NUM_PACKS ≤ (a + 255) % 256 ∨ ¬ HasTag1096 frame := by
    by_cases h1 : frame.length < 135
    · exact Or.inl h1
    by_cases h2 : NUM_PACKS ≤ (a + 255) % 256
    · exact Or.inr (Or.inl h2)
    refine Or.inr (Or.inr fun h3 => hc ⟨by omega, by omega, h3⟩)
  rw [decode_reject now frame a s hr] at h
  simp at h

/-- A decode of a frame of at least 135 bytes with the tag: the state it returns,
for either path. -/
theorem decode_some_eq (now : Nat) (frame : List Nat) (a : Nat) (s : Sniffer)
    (hlen : 135 ≤ frame.length) (hidx : (a + 255) % 256 < NUM_PACKS) (htag : HasTag1096 frame) :
    ∃ (pack : PackData) (m M : ℚ) (temps cells : List ℚ),
      decode_analog_data now frame a s =
        some (s.written ⟨(a + 255) % 256, hidx⟩ pack temps cells, true) ∧
      (pack = partialPack frame (s.pack_data_ ⟨(a + 255) % 256, hidx⟩) m M ∧ frame.length < 165 ∨
       pack = fullPack now frame (s.pack_data_ ⟨(a + 255) % 256, hidx⟩) m M ∧
         165 ≤ frame.length) ∧
      (∀ i, m ≤ cellsOf frame i) ∧ (∃ i, m = cellsOf frame i) ∧
      (∀ i, cellsOf frame i ≤ M) ∧ (∃ i, M = cellsOf frame i) := by
  by_cases h165 : frame.length < 165
  · obtain ⟨m, M, temps, cells, h, hs⟩ := decode_partial_eq now frame a s hlen h165 hidx htag
    exact ⟨_, m, M, temps, cells, h, Or.inl ⟨rfl, h165⟩, hs⟩
  · obtain ⟨m, M, temps, cells, h, hs⟩ := decode_full_eq now frame a s (by omega) hidx htag
    exact ⟨_, m, M, temps, cells, h, Or.inr ⟨rfl, by omega⟩, hs⟩

theorem cellsOf_slice (frame : List Nat) (hlen : 135 ≤ frame.length) (i : Fin NUM_CELLS) :
    ∃ w, parse_hex_word ((frame.drop (21 + 4 * i.val)).take 4) = some w ∧
      cellsOf frame i = (w : ℚ) / 1000 := by
  have hi : i.val < 16 := i.isLt
  refine ⟨wordAt frame (21 + 4 * i.val), parse_hex_word_slice frame _ (by omega), ?_⟩
  simp [cellsOf, Nat.mul_comm]

theorem tempsOf_slice (frame : List Nat) (hlen : 135 ≤ frame.length) (j : Fin NUM_TEMPS) :
    ∃ w, parse_hex_word ((frame.drop (86 + 5 * j.val)).take 4) = some w ∧
      tempsOf frame j = (w : ℚ) / 100 := by
  have hj : j.val < 6 := j.isLt
  exact ⟨wordAt frame (86 + 5 * j.val), parse_hex_word_slice frame _ (by omega), rfl⟩

/-! ## Slices of a frame -/

theorem slice_two (frame : List Nat) (k : Nat) (h : k + 2 ≤ frame.length) :
    (frame.drop k).take 2 = [frame.getD k 0, frame.getD (k + 1) 0] := by
  apply List.ext_getElem?
  intro n
  rw [List.getElem?_take]
  rcases n with _ | _ | n
  · simp [List.getElem?_drop, List.getD_eq_getElem?_getD,
      List.getElem?_eq_getElem (show k < frame.length by omega)]
  · simp [List.getElem?_drop, List.getD_eq_getElem?_getD,
      List.getElem?_eq_getElem (show k + 1 < frame.length by omega)]
  · simp

theorem slice_four (frame : List Nat) (k : Nat) (h : k + 4 ≤ frame.length) :
    (frame.drop k).take 4 =
      [frame.getD k 0, frame.getD (k + 1) 0, frame.getD (k + 2) 0, frame.getD (k + 3) 0] := by
  apply List.ext_getElem?
  intro n
  rw [List.getElem?_take]
  rcases n with _ | _ | _ | _ | n
  · simp [List.getElem?_drop, List.getD_eq_getElem?_getD,
      List.getElem?_eq_getElem (show k < frame.length by omega)]
  · simp [List.getElem?_drop, List.getD_eq_getElem?_getD,
      List.getElem?_eq_getElem (show k + 1 < frame.length by omega)]
  · simp [List.getElem?_drop, List.getD_eq_getElem?_getD,
      List.getElem?_eq_getElem (show k + 2 < frame.length by omega)]
  · simp [List.getElem?_drop, List.getD_eq_getElem?_getD,
      List.getElem?_eq_getElem (show k + 3 < frame.length by omega)]
  · simp

theorem hasTag_iff_slice (frame : List Nat) (h : 13 ≤ frame.length) :
    HasTag1096 frame ↔ (frame.drop 9).take 4 = [49, 48, 57, 54] := by
  rw [slice_four frame 9 (by omega)]
  unfold HasTag1096
  rw [getElem?_getD_of_lt frame 9 (by omega), getElem?_getD_of_lt frame 10 (by omega),
    getElem?_getD_of_lt frame 11 (by omega), getElem?_getD_of_lt frame 12 (by omega)]
  simp

theorem wordAt_of_slice (frame : List Nat) (k : Nat) (c : List Nat) (h : k + 4 ≤ frame.length)
    (hc : (frame.drop k).take 4 = c) : parse_hex_word c = some (wordAt frame k) := by
  rw [← hc]
  exact parse_hex_word_slice frame k h

theorem statsPack_fields (pack : PackData) (m M : ℚ) :
    (statsPack pack m M).min_cell_v = m ∧ (statsPack pack m M).max_cell_v = M ∧
    (statsPack pack m M).avg_cell_v = (∑ i : Fin NUM_CELLS, pack.cell_voltages i) / 16 ∧
    (statsPack pack m M).delta_cell_v = M - m :=
  ⟨rfl, rfl, rfl, rfl⟩

theorem sum_cells_const (cells : Fin NUM_CELLS → ℚ) (v : ℚ) (h : ∀ i, cells i = v) :
    (∑ i : Fin NUM_CELLS, cells i) / 16 = v := by
  simp only [h, Finset.sum_const, Finset.card_univ, Fintype.card_fin, nsmul_eq_mul]
  norm_num

/-- What `process_frame` does once its own length check has passed, on total reads. -/
theorem process_frame_eq (now : Nat) (frame : List Nat) (s : Sniffer)
    (h15 : 15 ≤ frame.length) :
    process_frame now frame s =
      if (frame.drop 1).take 2 = [50, 53] ∧ 1 ≤ frameAddr frame ∧ frameAddr frame ≤ 8 ∧
          frameCmd frame = 0x46 ∧ (frame.drop 7).take 2 = [48, 48] then
        (decode_analog_data now frame (frameAddr frame) s).map fun r => r.1
      else some s := by
  have h15' : ¬ frame.length < 15 := by omega
  have h10 : frame.length > 10 := by omega
  rw [slice_two frame 1 (by omega), slice_two frame 7 (by omega)]
  unfold process_frame
  simp only [h15', if_false, getElem?_getD_of_lt frame 1 (by omega),
    getElem?_getD_of_lt frame 2 (by omega), getElem?_getD_of_lt frame 3 (by omega),
    getElem?_getD_of_lt frame 4 (by omega), getElem?_getD_of_lt frame 5 (by omega),
    getElem?_getD_of_lt frame 6 (by omega), getElem?_getD_of_lt frame 7 (by omega),
    getElem?_getD_of_lt frame 8 (by omega), Option.some_bind, h10, if_true]
  by_cases c1 : frame.getD 1 0 = 50
  swap
  · rw [if_pos c1, if_neg (fun h => c1 (List.cons.inj h.1).1)]
  rw [if_neg (not_not.mpr c1)]
  by_cases c2 : frame.getD 2 0 = 53
  swap
  · rw [if_pos c2, if_neg (fun h => c2 (List.cons.inj (List.cons.inj h.1).2).1)]
  rw [if_neg (not_not.mpr c2)]
  have e12 : [frame.getD 1 0, frame.getD (1 + 1) 0] = [50, 53] := by rw [c1, c2]
  change (if frameAddr frame < 1 ∨ frameAddr frame > 8 then some s else
    if frameCmd frame = 0x46 then
      if frame.getD 7 0 = 48 then
        if frame.getD 8 0 = 48 then
          (decode_analog_data now frame (frameAddr frame) s).map fun r => r.1
        else some s
      else some s
    else some s) = _
  by_cases ca : frameAddr frame < 1 ∨ frameAddr frame > 8
  · rw [if_pos ca, if_neg (fun h => by omega)]
  rw [if_neg ca]
  by_cases cc : frameCmd frame = 0x46
  swap
  · rw [if_neg cc, if_neg (fun h => cc h.2.2.2.1)]
  rw [if_pos cc]
  by_cases c7 : frame.getD 7 0 = 48
  swap
  · rw [if_neg c7, if_neg (fun h => c7 (List.cons.inj h.2.2.2.2).1)]
  rw [if_pos c7]
  by_cases c8 : frame.getD 8 0 = 48
  swap
  · rw [if_neg c8, if_neg (fun h => c8 (List.cons.inj (List.cons.inj h.2.2.2.2).2).1)]
  rw [if_pos c8, if_pos ⟨e12, by omega, by omega, cc, by rw [c7, c8]⟩]

/-- The fields of the slot after a partial decode. -/
theorem partialPack_fields (frame : List Nat) (old : PackData) (m M : ℚ) :
    (partialPack frame old m M).cell_voltages = cellsOf frame ∧
    (partialPack frame old m M).temperatures = tempsOf frame ∧
    (partialPack frame old m M).valid = true ∧
    (partialPack frame old m M).min_cell_v = m ∧
    (partialPack frame old m M).max_cell_v = M ∧
    (partialPack frame old m M).avg_cell_v = (∑ i : Fin NUM_CELLS, cellsOf frame i) / 16 ∧
    (partialPack frame old m M).delta_cell_v = M - m ∧
    (partialPack frame old m M).voltage = old.voltage ∧
    (partialPack frame old m M).remaining_cap = old.remaining_cap ∧
    (partialPack frame old m M).soc = old.soc ∧
    (partialPack frame old m M).full_cap = old.full_cap ∧
    (partialPack frame old m M).design_cap = old.design_cap ∧
    (partialPack frame old m M).soh = old.soh ∧
    (partialPack frame old m M).cycles = old.cycles ∧
    (partialPack frame old m M).current = old.current ∧
    (partialPack frame old m M).last_update = old.last_update :=
  ⟨rfl, rfl, rfl, rfl, rfl, rfl, rfl, rfl, rfl, rfl, rfl, rfl, rfl, rfl, rfl, rfl⟩

/-- The fields of the slot after a full decode. -/
theorem fullPack_fields (now : Nat) (frame : List Nat) (old : PackData) (m M : ℚ) :
    (fullPack now frame old m M).voltage = (wordAt frame 119 : ℚ) / 100 ∧
    (fullPack now frame old m M).remaining_cap = (wordAt frame 123 : ℚ) / 100 ∧
    (fullPack now frame old m M).soc = (wordAt frame 127 >>> 8) &&& 0xFF ∧
    (fullPack now frame old m M).full_cap = (wordAt frame 131 : ℚ) / 100 ∧
    (fullPack now frame old m M).soh = 100 ∧
    (fullPack now frame old m M).design_cap = 100 ∧
    (fullPack now frame old m M).cycles = 0 ∧
    (fullPack now frame old m M).current = 0 ∧
    (fullPack now frame old m M).valid = true ∧
    (fullPack now frame old m M).last_update = now :=
  ⟨rfl, rfl, rfl, rfl, rfl, rfl, rfl, rfl, rfl, rfl⟩

/-! ## Lemmas on the Framer -/

theorem framer_run_append (MAX : Nat) (buf xs ys : List Nat) :
    framer_run MAX buf (xs ++ ys) =
      ((framer_run MAX (framer_run MAX buf xs).1 ys).1,
        (framer_run MAX buf xs).2 ++ (framer_run MAX (framer_run MAX buf xs).1 ys).2) := by
  induction xs generalizing buf with
  | nil => simp [framer_run]
  | cons x xs ih =>
    show framer_run MAX buf (x :: (xs ++ ys)) = _
    simp only [framer_run, ih, List.append_assoc]

theorem framer_byte_start (MAX : Nat) (buf : List Nat) :
    framer_byte MAX buf FRAME_START = ([FRAME_START], none) := by
  simp [framer_byte]

theorem framer_byte_idle (MAX : Nat) (b : Nat) (hb : b ≠ FRAME_START) :
    framer_byte MAX [] b = ([], none) := by
  simp [framer_byte, hb]

theorem framer_byte_body (MAX : Nat) (buf : List Nat) (b : Nat) (hbuf : buf ≠ [])
    (hs : b ≠ FRAME_START) (he : b ≠ FRAME_END) :
    framer_byte MAX buf b = (if buf.length + 1 > MAX then [] else buf ++ [b], none) := by
  simp [framer_byte, hs, he, hbuf]

theorem framer_byte_end (MAX : Nat) (buf : List Nat) (hbuf : buf ≠ []) :
    framer_byte MAX buf FRAME_END =
      ([], if (buf ++ [FRAME_END]).length > 10 then some (buf ++ [FRAME_END]) else none) := by
  have h : FRAME_END ≠ FRAME_START := by decide
  simp [framer_byte, h, hbuf]

theorem framer_run_idle (MAX : Nat) (bs : List Nat) (h : ∀ b ∈ bs, b ≠ FRAME_START) :
    framer_run MAX [] bs = ([], []) := by
  induction bs with
  | nil => rfl
  | cons b bs ih =>
    have hb := h b (List.mem_cons_self _ _)
    simp only [framer_run, framer_byte_idle MAX b hb,
      ih (fun x hx => h x (List.mem_cons_of_mem _ hx))]
    rfl

theorem framer_run_body (MAX : Nat) (bs buf : List Nat) (hbuf : buf ≠ [])
    (h : ∀ b ∈ bs, b ≠ FRAME_START ∧ b ≠ FRAME_END) (hlen : buf.length + bs.length ≤ MAX) :
    framer_run MAX buf bs = (buf ++ bs, []) := by
  induction bs generalizing buf with
  | nil => simp [framer_run]
  | cons b bs ih =>
    have hb := h b (List.mem_cons_self _ _)
    have hl : buf.length + (bs.length + 1) ≤ MAX := hlen
    have hn : ¬ buf.length + 1 > MAX := by omega
    simp only [framer_run, framer_byte_body MAX buf b hbuf hb.1 hb.2, if_neg hn]
    rw [ih (buf ++ [b]) (by simp) (fun x hx => h x (List.mem_cons_of_mem _ hx))
      (by simp only [List.length_append, List.length_singleton]; omega)]
    simp

theorem framer_run_oversize (MAX : Nat) (bs buf : List Nat) (hbuf : buf ≠ [])
    (h : ∀ b ∈ bs, b ≠ FRAME_START ∧ b ≠ FRAME_END) (hne : bs ≠ [])
    (hlen : MAX < buf.length + bs.length) :
    framer_run MAX buf bs = ([], []) := by
  induction bs generalizing buf with
  | nil => exact absurd rfl hne
  | cons b bs ih =>
    have hb := h b (List.mem_cons_self _ _)
    have hrest : ∀ x ∈ bs, x ≠ FRAME_START ∧ x ≠ FRAME_END :=
      fun x hx => h x (List.mem_cons_of_mem _ hx)
    have hl : MAX < buf.length + (bs.length + 1) := hlen
    simp only [framer_run, framer_byte_body MAX buf b hbuf hb.1 hb.2]
    by_cases hn : buf.length + 1 > MAX
    · rw [if_pos hn, framer_run_idle MAX bs (fun x hx => (hrest x hx).1)]
      rfl
    · rw [if_neg hn]
      have hbs : bs ≠ [] := by
        intro e
        rw [e] at hl
        simp only [List.length_nil] at hl
        omega
      rw [ih (buf ++ [b]) (by simp) hrest hbs
        (by simp only [List.length_append, List.length_singleton]; omega)]
      rfl

theorem validFrame_split (MAX : Nat) (f : List Nat) (hf : ValidFrame MAX f) :
    f = FRAME_START :: (f.tail.dropLast ++ [FRAME_END]) := by
  obtain ⟨hh, hl, -, h10, -⟩ := hf
  cases f with
  | nil => simp at hh
  | cons x tl =>
    simp only [List.head?_cons, Option.some.injEq] at hh
    subst hh
    have htl : tl ≠ [] := by
      intro e
      rw [e] at h10
      simp at h10
    have hl2 : tl.getLast? = some FRAME_END := by
      cases tl with
      | nil => exact absurd rfl htl
      | cons y t2 =>
        rw [List.getLast?_cons_cons] at hl
        exact hl
    simp only [List.tail_cons]
    congr 1
    have := List.dropLast_append_getLast? FRAME_END (by
      simpa [Option.mem_def] using hl2 : FRAME_END ∈ tl.getLast?)
    exact this.symm

/-- A valid frame is emitted whole, whatever the buffer held before its start
marker, and leaves the buffer empty. -/
theorem framer_run_frame (MAX : Nat) (buf f : List Nat) (hf : ValidFrame MAX f) :
    framer_run MAX buf f = ([], [f]) := by
  have hsplit := validFrame_split MAX f hf
  obtain ⟨-, -, hbody, h10, hmax⟩ := hf
  have hlen : f.length = f.tail.dropLast.length + 2 := by
    conv_lhs => rw [hsplit]
    simp
  have hb := framer_run_body MAX f.tail.dropLast [FRAME_START] (by simp) hbody
    (by simp only [List.length_singleton]; omega)
  have h11 : ([FRAME_START] ++ f.tail.dropLast ++ [FRAME_END]).length > 10 := by
    simp only [List.length_append, List.length_singleton]
    omega
  have hrun : framer_run MAX buf (FRAME_START :: (f.tail.dropLast ++ [FRAME_END])) =
      ([], [FRAME_START :: (f.tail.dropLast ++ [FRAME_END])]) := by
    simp only [framer_run, framer_byte_start, framer_run_append, hb,
      framer_byte_end MAX ([FRAME_START] ++ f.tail.dropLast) (by simp), if_pos h11]
    simp
  rw [← hsplit] at hrun
  exact hrun

/-! ## Lemmas on the round trip -/

theorem encodeNibble_hex (c : Nat) (h : IsUpperHex c) : encodeNibble (hex_char_to_byte c) = c := by
  unfold IsUpperHex at h
  unfold encodeNibble hex_char_to_byte
  split_ifs <;> omega

theorem and_255 (w : Nat) : w &&& 0xFF = w % 256 := by
  have h := Nat.and_pow_two_sub_one_eq_mod w 8
  simpa using h

theorem shr_8 (w : Nat) : w >>> 8 = w / 256 := by
  rw [Nat.shiftRight_eq_div_pow]

theorem hexWord_encode (c0 c1 c2 c3 : Nat) (h0 : IsUpperHex c0) (h1 : IsUpperHex c1)
    (h2 : IsUpperHex c2) (h3 : IsUpperHex c3) :
    encodeByte (hexWord c0 c1 c2 c3 &&& 0xFF) ++ encodeByte (hexWord c0 c1 c2 c3 >>> 8) =
      [c0, c1, c2, c3] := by
  have l0 := hex_char_to_byte_lt c0
  have l1 := hex_char_to_byte_lt c1
  have l2 := hex_char_to_byte_lt c2
  have l3 := hex_char_to_byte_lt c3
  have e0 := encodeNibble_hex c0 h0
  have e1 := encodeNibble_hex c1 h1
  have e2 := encodeNibble_hex c2 h2
  have e3 := encodeNibble_hex c3 h3
  rw [and_255, shr_8]
  have hlow : hexWord c0 c1 c2 c3 % 256 = 16 * hex_char_to_byte c0 + hex_char_to_byte c1 := by
    unfold hexWord
    omega
  have hhigh : hexWord c0 c1 c2 c3 / 256 = 16 * hex_char_to_byte c2 + hex_char_to_byte c3 := by
    unfold hexWord
    omega
  have a0 : (16 * hex_char_to_byte c0 + hex_char_to_byte c1) / 16 = hex_char_to_byte c0 := by
    omega
  have a1 : (16 * hex_char_to_byte c0 + hex_char_to_byte c1) % 16 = hex_char_to_byte c1 := by
    omega
  have a2 : (16 * hex_char_to_byte c2 + hex_char_to_byte c3) / 16 = hex_char_to_byte c2 := by
    omega
  have a3 : (16 * hex_char_to_byte c2 + hex_char_to_byte c3) % 16 = hex_char_to_byte c3 := by
    omega
  simp only [encodeByte, hlow, hhigh, a0, a1, a2, a3, e0, e1, e2, e3, List.cons_append,
    List.nil_append]

theorem list_four (s : List Nat) (h : s.length = 4) :
    ∃ c0 c1 c2 c3, s = [c0, c1, c2, c3] := by
  match s, h with
  | [c0, c1, c2, c3], _ => exact ⟨c0, c1, c2, c3, rfl⟩

theorem parse_hex_word_encode (s : List Nat) (hlen : s.length = 4)
    (hs : ∀ c ∈ s, IsUpperHex c) :
    ∃ w, parse_hex_word s = some w ∧ encodeByte (w &&& 0xFF) ++ encodeByte (w >>> 8) = s := by
  obtain ⟨c0, c1, c2, c3, rfl⟩ := list_four s hlen
  refine ⟨hexWord c0 c1 c2 c3, parse_hex_word_four c0 c1 c2 c3 [], ?_⟩
  exact hexWord_encode c0 c1 c2 c3 (hs c0 (by simp)) (hs c1 (by simp)) (hs c2 (by simp))
    (hs c3 (by simp))

/-! ## Lemmas on the statistics of a slot -/

theorem least_unique (c : Fin NUM_CELLS → ℚ) (m m2 : ℚ)
    (h1 : ∀ i, m ≤ c i) (h2 : ∃ i, m = c i) (h3 : ∀ i, m2 ≤ c i) (h4 : ∃ i, m2 = c i) :
    m = m2 := by
  obtain ⟨i, hi⟩ := h2
  obtain ⟨j, hj⟩ := h4
  apply le_antisymm
  · rw [hj]
    exact h1 j
  · rw [hi]
    exact h3 i

theorem greatest_unique (c : Fin NUM_CELLS → ℚ) (M M2 : ℚ)
    (h1 : ∀ i, c i ≤ M) (h2 : ∃ i, M = c i) (h3 : ∀ i, c i ≤ M2) (h4 : ∃ i, M2 = c i) :
    M = M2 := by
  obtain ⟨i, hi⟩ := h2
  obtain ⟨j, hj⟩ := h4
  apply le_antisymm
  · rw [hi]
    exact h3 i
  · rw [hj]
    exact h1 j

theorem fullPack_old (now : Nat) (frame : List Nat) (old old2 : PackData) (m M : ℚ) :
    fullPack now frame old m M = fullPack now frame old2 m M :=
  rfl

theorem wordAt_lt (frame : List Nat) (k : Nat) : wordAt frame k < 65536 :=
  hexWord_lt _ _ _ _

theorem upper_byte (w : Nat) (h : w < 65536) :
    (w >>> 8) &&& 0xFF = w / 256 ∧ w / 256 ≤ 255 := by
  rw [and_255, shr_8]
  omega

/-! ## The invariant of the Framer -/

theorem framer_byte_inv (MAX : Nat) (hM : 1 ≤ MAX) (buf : List Nat) (hinv : BufferInv MAX buf)
    (b : Nat) :
    BufferInv MAX (framer_byte MAX buf b).1 ∧
    ∀ f, (framer_byte MAX buf b).2 = some f → ValidFrame (MAX + 1) f := by
  by_cases hs : b = FRAME_START
  · subst hs
    rw [framer_byte_start]
    refine ⟨Or.inr ⟨rfl, ?_, hM⟩, ?_⟩
    · intro x hx
      simp at hx
    · intro f hf
      simp at hf
  cases buf with
  | nil =>
    rw [framer_byte_idle MAX b hs]
    refine ⟨Or.inl rfl, ?_⟩
    intro f hf
    simp at hf
  | cons x tl =>
    rcases hinv with h | ⟨hh, ht, hl⟩
    · simp at h
    simp only [List.head?_cons, Option.some.injEq] at hh
    simp only [List.tail_cons] at ht
    simp only [List.length_cons] at hl
    subst hh
    by_cases he : b = FRAME_END
    · subst he
      rw [framer_byte_end MAX _ (by simp)]
      refine ⟨Or.inl rfl, ?_⟩
      intro f hf
      split_ifs at hf with h10
      · simp only [Option.some.injEq] at hf
        subst hf
        simp only [List.cons_append, List.length_cons, List.length_append,
          List.length_singleton, List.length_nil] at h10
        refine ⟨rfl, List.getLast?_concat _, ?_, ?_, ?_⟩
        · show ∀ y ∈ (tl ++ [FRAME_END]).dropLast, y ≠ FRAME_START ∧ y ≠ FRAME_END
          rw [List.dropLast_concat]
          exact ht
        · simp only [List.cons_append, List.length_cons, List.length_append,
            List.length_singleton, List.length_nil]
          omega
        · simp only [List.cons_append, List.length_cons, List.length_append,
            List.length_singleton, List.length_nil]
          omega
    · rw [framer_byte_body MAX _ b (by simp) hs he]
      refine ⟨?_, ?_⟩
      · by_cases hn : (FRAME_START :: tl).length + 1 > MAX
        · rw [if_pos hn]
          exact Or.inl rfl
        · rw [if_neg hn]
          refine Or.inr ⟨rfl, ?_, ?_⟩
          · intro y hy
            simp only [List.cons_append, List.tail_cons, List.mem_append,
              List.mem_singleton] at hy
            rcases hy with hy | hy
            · exact ht y hy
            · rw [hy]
              exact ⟨hs, he⟩
          · simp only [List.length_cons, List.length_append, List.length_singleton,
              List.length_nil] at hn ⊢
            omega
      · intro f hf
        simp at hf

theorem framer_run_inv (MAX : Nat) (hM : 1 ≤ MAX) (stream buf : List Nat)
    (hinv : BufferInv MAX buf) :
    BufferInv MAX (framer_run MAX buf stream).1 ∧
    ∀ f ∈ (framer_run MAX buf stream).2, ValidFrame (MAX + 1) f := by
  induction stream generalizing buf with
  | nil =>
    refine ⟨hinv, ?_⟩
    intro f hf
    simp [framer_run] at hf
  | cons b bs ih =>
    obtain ⟨h1, h2⟩ := framer_byte_inv MAX hM buf hinv b
    obtain ⟨h3, h4⟩ := ih (framer_byte MAX buf b).1 h1
    simp only [framer_run]
    refine ⟨h3, ?_⟩
    intro f hf
    rcases List.mem_append.mp hf with hf | hf
    · exact h2 f (by simpa [Option.mem_toList] using hf)
    · exact h4 f hf

/-! ## Totality and read footprint of the decoder -/

theorem decode_total (now : Nat) (frame : List Nat) (a : Nat) (s : Sniffer) :
    (∃ s', decode_analog_data now frame a s = some (s', true) ∧
      ∀ q : Fin NUM_PACKS, q.val ≠ (a + 255) % 256 → s'.pack_data_ q = s.pack_data_ q) ∨
    decode_analog_data now frame a s = some (s, false) := by
  by_cases hr : frame.length < 135 ∨ NUM_PACKS ≤ (a + 255) % 256 ∨ ¬ HasTag1096 frame
  · exact Or.inr (decode_reject now frame a s hr)
  · have hlen : 135 ≤ frame.length := by
      by_contra h
      exact hr (Or.inl (by omega))
    have hidx : (a + 255) % 256 < NUM_PACKS := by
      by_contra h
      exact hr (Or.inr (Or.inl (by omega)))
    have htag : HasTag1096 frame := by
      by_contra h
      exact hr (Or.inr (Or.inr h))
    obtain ⟨pack, m, M, temps, cells, hdec, -⟩ := decode_some_eq now frame a s hlen hidx htag
    refine Or.inl ⟨_, hdec, ?_⟩
    intro q hq
    have hne : q ≠ ⟨(a + 255) % 256, hidx⟩ := fun h => hq (by rw [h])
    simp [Sniffer.written, Function.update_noteq hne]

theorem getD_of_take (f g : List Nat) (n k : Nat) (h : g.take n = f.take n) (hk : k < n) :
    g.getD k 0 = f.getD k 0 := by
  have hg : (g.take n)[k]? = g[k]? := by rw [List.getElem?_take, if_pos hk]
  have hf : (f.take n)[k]? = f[k]? := by rw [List.getElem?_take, if_pos hk]
  rw [List.getD_eq_getElem?_getD, List.getD_eq_getElem?_getD, ← hg, ← hf, h]

theorem wordAt_of_take (f g : List Nat) (n k : Nat) (h : g.take n = f.take n)
    (hk : k + 3 < n) : wordAt g k = wordAt f k := by
  unfold wordAt
  rw [getD_of_take f g n k h (by omega), getD_of_take f g n (k + 1) h (by omega),
    getD_of_take f g n (k + 2) h (by omega), getD_of_take f g n (k + 3) h (by omega)]

theorem cellsOf_of_take (f g : List Nat) (n : Nat) (h : g.take n = f.take n) (hn : 85 ≤ n) :
    cellsOf g = cellsOf f := by
  funext j
  have hj : j.val < 16 := j.isLt
  unfold cellsOf
  rw [wordAt_of_take f g n _ h (by omega)]

theorem tempsOf_of_take (f g : List Nat) (n : Nat) (h : g.take n = f.take n) (hn : 115 ≤ n) :
    tempsOf g = tempsOf f := by
  funext j
  have hj : j.val < 6 := j.isLt
  unfold tempsOf
  rw [wordAt_of_take f g n _ h (by omega)]

theorem hasTag_of_take (f g : List Nat) (n : Nat) (h : g.take n = f.take n) (hn : 13 ≤ n)
    (hlen : g.length = f.length) (h13 : 13 ≤ f.length) : HasTag1096 g ↔ HasTag1096 f := by
  unfold HasTag1096
  rw [getElem?_getD_of_lt g 9 (by omega), getElem?_getD_of_lt g 10 (by omega),
    getElem?_getD_of_lt g 11 (by omega), getElem?_getD_of_lt g 12 (by omega),
    getElem?_getD_of_lt f 9 (by omega), getElem?_getD_of_lt f 10 (by omega),
    getElem?_getD_of_lt f 11 (by omega), getElem?_getD_of_lt f 12 (by omega),
    getD_of_take f g n 9 h (by omega), getD_of_take f g n 10 h (by omega),
    getD_of_take f g n 11 h (by omega), getD_of_take f g n 12 h (by omega)]

/-- The decoder's result depends on the frame only through its length and its
first `n` bytes, for `n = 115` on a frame shorter than 165 and `n = 135` otherwise. -/
theorem decode_footprint (now : Nat) (f g : List Nat) (a : Nat) (s : Sniffer) (n : Nat)
    (hn : 115 ≤ n) (hfull : 165 ≤ f.length → 135 ≤ n)
    (hlen : g.length = f.length) (h : g.take n = f.take n) :
    decode_analog_data now g a s = decode_analog_data now f a s := by
  by_cases hr : f.length < 135 ∨ NUM_PACKS ≤ (a + 255) % 256 ∨ ¬ HasTag1096 f
  · have hg : g.length < 135 ∨ NUM_PACKS ≤ (a + 255) % 256 ∨ ¬ HasTag1096 g := by
      rcases hr with h1 | h1 | h1
      · exact Or.inl (by omega)
      · exact Or.inr (Or.inl h1)
      · by_cases h135 : f.length < 135
        · exact Or.inl (by omega)
        · exact Or.inr (Or.inr fun hg =>
            h1 ((hasTag_of_take f g n h (by omega) hlen (by omega)).mp hg))
    rw [decode_reject now f a s hr, decode_reject now g a s hg]
  · have hl : 135 ≤ f.length := by
      by_contra h1
      exact hr (Or.inl (by omega))
    have hidx : (a + 255) % 256 < NUM_PACKS := by
      by_contra h1
      exact hr (Or.inr (Or.inl (by omega)))
    have htag : HasTag1096 f := by
      by_contra h1
      exact hr (Or.inr (Or.inr h1))
    have htagg : HasTag1096 g := (hasTag_of_take f g n h (by omega) hlen (by omega)).mpr htag
    rw [decode_accept now f a s hl hidx htag, decode_accept now g a s (by omega) hidx htagg,
      cellsOf_of_take f g n h (by omega), tempsOf_of_take f g n h hn, hlen]
    by_cases h165 : f.length < 165
    · rw [if_pos h165, if_pos h165]
    · have hn2 : 135 ≤ n := hfull (by omega)
      rw [if_neg h165, if_neg h165, wordAt_of_take f g n 119 h (by omega),
        wordAt_of_take f g n 123 h (by omega), wordAt_of_take f g n 127 h (by omega),
        wordAt_of_take f g n 131 h (by omega)]

theorem process_frame_total (now : Nat) (frame : List Nat) (s : Sniffer) :
    ∃ s', process_frame now frame s = some s' ∧
      ∀ q : Fin NUM_PACKS, q.val + 1 ≠ frameAddr frame → s'.pack_data_ q = s.pack_data_ q := by
  by_cases h15 : frame.length < 15
  · exact ⟨s, by simp [process_frame, h15], fun _ _ => rfl⟩
  rw [process_frame_eq now frame s (by omega)]
  split_ifs with hc
  · obtain ⟨-, ca1, ca8, -, -⟩ := hc
    rcases decode_total now frame (frameAddr frame) s with ⟨s', hdec, hq⟩ | hdec
    · refine ⟨s', by rw [hdec]; rfl, ?_⟩
      intro q hne
      exact hq q (by omega)
    · exact ⟨s, by rw [hdec]; rfl, fun _ _ => rfl⟩
  · exact ⟨s, rfl, fun _ _ => rfl⟩

/-! ## The two readings agree when nothing is rounded -/

theorem stats_body_fl_id : stats_body_fl id = stats_body := rfl

theorem calculate_pack_stats_fl_id : calculate_pack_stats_fl id = calculate_pack_stats := rfl

theorem cell_body_fl_id : cell_body_fl id = cell_body := rfl

theorem temp_body_fl_id : temp_body_fl id = temp_body := rfl

theorem decode_analog_data_fl_id : decode_analog_data_fl id = decode_analog_data := rfl

/-! ## Lemmas on the float32 reading -/

theorem forLoop_cells_fl (rnd : ℚ → ℚ) (frame : List Nat) (pos : Nat) (pack : PackData) (n : Nat)
    (hn : n ≤ NUM_CELLS) (hlen : pos + 4 * n ≤ frame.length) :
    forLoop (cell_body_fl rnd frame pos) n pack =
      some { pack with cell_voltages := fun j =>
        if j.val < n then (rnd ((wordAt frame (pos + j.val * 4) : ℚ) / 1000))
        else (pack.cell_voltages j) } := by
  induction n with
  | zero => simp [forLoop]
  | succ k ih =>
    have hk : k < NUM_CELLS := hn
    have hlog : (if k = 0 then log_reads frame [pos, pos + 1, pos + 2, pos + 3] else some ()) =
        some () := by
      split_ifs
      · exact log_reads_some frame _ (by
          intro x hx
          simp only [List.mem_cons, List.mem_singleton, List.not_mem_nil, or_false] at hx
          omega)
      · rfl
    simp only [forLoop, ih (Nat.le_of_lt hk) (by omega), Option.some_bind, cell_body_fl,
      parse_hex_word_drop frame (pos + k * 4) (by omega), arrayIdx_of_lt _ _ hk, hlog]
    congr 2
    funext j
    by_cases hj : j = ⟨k, hk⟩
    · subst hj
      simp
    · have hne : j.val ≠ k := fun h => hj (Fin.ext h)
      rw [Function.update_noteq hj]
      by_cases hlt : j.val < k
      · simp [hlt, Nat.lt_succ_of_lt hlt]
      · have : ¬ j.val < k + 1 := by omega
        simp [hlt, this]

theorem forLoop_temps_fl (rnd : ℚ → ℚ) (frame : List Nat) (pos : Nat) (pack : PackData) (n : Nat)
    (hn : n ≤ NUM_TEMPS) (hlen : pos + 5 * n ≤ frame.length) :
    forLoop (temp_body_fl rnd frame) n (pos, pack) =
      some (pos + 5 * n, ({ pack with temperatures := fun j =>
        if j.val < n then (rnd ((wordAt frame (pos + 1 + 5 * j.val) : ℚ) / 100))
        else (pack.temperatures j) } : PackData)) := by
  induction n with
  | zero => simp [forLoop]
  | succ k ih =>
    have hk : k < NUM_TEMPS := hn
    simp only [forLoop, ih (Nat.le_of_lt hk) (by omega), Option.some_bind, temp_body_fl,
      parse_hex_word_drop frame (pos + 5 * k + 1) (by omega), arrayIdx_of_lt _ _ hk]
    refine congrArg some (Prod.ext (by simp only []; omega) ?_)
    · simp only []
      congr 1
      funext j
      by_cases hj : j = ⟨k, hk⟩
      · subst hj
        have : pos + 5 * k + 1 = pos + 1 + 5 * k := by omega
        simp [this]
      · have hne : j.val ≠ k := fun h => hj (Fin.ext h)
        rw [Function.update_noteq hj]
        by_cases hlt : j.val < k
        · simp [hlt, Nat.lt_succ_of_lt hlt]
        · have : ¬ j.val < k + 1 := by omega
          simp [hlt, this]

theorem forLoop_cells_all_fl (rnd : ℚ → ℚ) (frame : List Nat) (pack : PackData) (hlen : 85 ≤ frame.length) :
    forLoop (cell_body_fl rnd frame 21) NUM_CELLS pack =
      some { pack with cell_voltages := cellsOf_fl rnd frame } := by
  rw [forLoop_cells_fl rnd frame 21 pack NUM_CELLS (le_refl _) (by simpa using hlen)]
  congr 2
  funext j
  simp [cellsOf_fl, j.isLt]

theorem forLoop_temps_all_fl (rnd : ℚ → ℚ) (frame : List Nat) (pack : PackData) (hlen : 115 ≤ frame.length) :
    forLoop (temp_body_fl rnd frame) NUM_TEMPS (85, pack) =
      some (115, ({ pack with temperatures := tempsOf_fl rnd frame } : PackData)) := by
  rw [forLoop_temps_fl rnd frame 85 pack NUM_TEMPS (le_refl _) (by simpa using hlen)]
  refine congrArg some (Prod.ext rfl ?_)
  simp only []
  congr 1
  funext j
  simp [tempsOf_fl, j.isLt]

theorem decode_reject_fl (rnd : ℚ → ℚ) (now : Nat) (frame : List Nat) (a : Nat) (s : Sniffer)
    (h : frame.length < 135 ∨ NUM_PACKS ≤ (a + 255) % 256 ∨ ¬ HasTag1096 frame) :
    decode_analog_data_fl rnd now frame a s = some (s, false) := by
  unfold decode_analog_data_fl
  by_cases h50 : frame.length < 50
  · simp [h50]
  have h50' : 50 ≤ frame.length := Nat.le_of_not_lt h50
  by_cases hidx : (a + 255) % 256 ≥ NUM_PACKS
  · simp [h50, hidx]
  have e9 := getElem?_getD_of_lt frame 9 (by omega)
  have e10 := getElem?_getD_of_lt frame 10 (by omega)
  have e11 := getElem?_getD_of_lt frame 11 (by omega)
  have e12 := getElem?_getD_of_lt frame 12 (by omega)
  simp only [h50, hidx, if_false, e9, e10, e11, e12, Option.some_bind]
  by_cases h9 : frame.getD 9 0 ≠ 49
  · rw [if_pos h9]
  rw [if_neg h9]
  by_cases h10 : frame.getD 10 0 ≠ 48
  · rw [if_pos h10]
  rw [if_neg h10]
  by_cases h11 : frame.getD 11 0 ≠ 57
  · rw [if_pos h11]
  rw [if_neg h11]
  by_cases h12 : frame.getD 12 0 ≠ 54
  · rw [if_pos h12]
  rw [if_neg h12]
  by_cases hl : frame.length < 21 + NUM_CELLS * 4 + NUM_TEMPS * 5 + 20
  · rw [if_pos hl]
  exfalso
  rcases h with h | h | h
  · exact hl (by simpa using h)
  · exact hidx h
  · apply h
    simp only [ne_eq, not_not] at h9 h10 h11 h12
    exact ⟨by rw [e9, h9], by rw [e10, h10], by rw [e11, h11], by rw [e12, h12]⟩

theorem decode_accept_fl (rnd : ℚ → ℚ) (now : Nat) (frame : List Nat) (a : Nat) (s : Sniffer)
    (hlen : 135 ≤ frame.length) (hidx : (a + 255) % 256 < NUM_PACKS) (htag : HasTag1096 frame) :
    decode_analog_data_fl rnd now frame a s =
      if frame.length < 165 then
        (calculate_pack_stats_fl rnd ((a + 255) % 256) (s.setPack ⟨(a + 255) % 256, hidx⟩
          { s.pack_data_ ⟨(a + 255) % 256, hidx⟩ with
            cell_voltages := cellsOf_fl rnd frame, temperatures := tempsOf_fl rnd frame,
            valid := true })).bind fun s1 =>
        (publish_pack_data ((a + 255) % 256) s1).bind fun s2 => some (s2, true)
      else
        (calculate_pack_stats_fl rnd ((a + 255) % 256) (s.setPack ⟨(a + 255) % 256, hidx⟩
          { s.pack_data_ ⟨(a + 255) % 256, hidx⟩ with
            cell_voltages := cellsOf_fl rnd frame, temperatures := tempsOf_fl rnd frame,
            voltage := rnd ((wordAt frame 119 : ℚ) / 100)
            remaining_cap := rnd ((wordAt frame 123 : ℚ) / 100)
            soc := (wordAt frame 127 >>> 8) &&& 0xFF
            full_cap := rnd ((wordAt frame 131 : ℚ) / 100)
            soh := 100, design_cap := 100, cycles := 0, current := 0,
            valid := true, last_update := now })).bind fun s1 =>
        (publish_pack_data ((a + 255) % 256) s1).bind fun s2 => some (s2, true) := by
  obtain ⟨t9, t10, t11, t12⟩ := htag
  have h50 : ¬ frame.length < 50 := by omega
  have hl : ¬ frame.length < 21 + NUM_CELLS * 4 + NUM_TEMPS * 5 + 20 := by
    simp only [NUM_CELLS, NUM_TEMPS]; omega
  have hp : 21 + NUM_CELLS * 4 = 85 := rfl
  have hlog : log_reads frame [0, 1, 2, 3, 4, 5, 6, 7, 8, 9] = some () :=
    log_reads_some frame _ (by
      intro x hx
      simp only [List.mem_cons, List.mem_singleton, List.not_mem_nil, or_false] at hx
      omega)
  have hl2 : ¬ frame.length < 85 + NUM_TEMPS * 5 + 20 := hl
  unfold decode_analog_data_fl
  simp only [h50, if_false, ge_iff_le, Nat.not_le.mpr hidx, t9, t10, t11, t12, Option.some_bind,
    ne_eq, not_true_eq_false, hl2, hlog, arrayIdx_of_lt _ _ hidx, hp,
    forLoop_cells_all_fl rnd frame _ (by omega : 85 ≤ frame.length),
    forLoop_temps_all_fl rnd frame _ (by omega : 115 ≤ frame.length)]
  by_cases h165 : frame.length < 165
  · have : frame.length < 115 + 50 := h165
    simp only [this, h165, if_true]
  · have h2 : ¬ frame.length < 115 + 50 := h165
    simp only [h2, h165, if_false,
      parse_hex_word_drop frame (115 + 4) (by omega),
      parse_hex_word_drop frame (115 + 4 + 4) (by omega),
      parse_hex_word_drop frame (115 + 4 + 4 + 4) (by omega),
      parse_hex_word_drop frame (115 + 4 + 4 + 4 + 4) (by omega), Option.some_bind,
      Nat.reduceAdd]

theorem forLoop_stats_fl (rnd : ℚ → ℚ) (pack : PackData) (n : Nat) (hn : n ≤ NUM_CELLS) :
    ∃ m M : ℚ,
      forLoop (stats_body_fl rnd) n (pack, 0) =
        some ({ pack with min_cell_v := m, max_cell_v := M },
          runningSum rnd pack.cell_voltages n) ∧
      m ≤ pack.min_cell_v ∧ (∀ i : Fin NUM_CELLS, i.val < n → m ≤ pack.cell_voltages i) ∧
      (m = pack.min_cell_v ∨ ∃ i : Fin NUM_CELLS, i.val < n ∧ m = pack.cell_voltages i) ∧
      pack.max_cell_v ≤ M ∧ (∀ i : Fin NUM_CELLS, i.val < n → pack.cell_voltages i ≤ M) ∧
      (M = pack.max_cell_v ∨ ∃ i : Fin NUM_CELLS, i.val < n ∧ M = pack.cell_voltages i) := by
  induction n with
  | zero =>
    refine ⟨pack.min_cell_v, pack.max_cell_v, ?_, le_refl _, ?_, Or.inl rfl, le_refl _, ?_,
      Or.inl rfl⟩
    · simp [forLoop, runningSum]
    · intro i hi
      exact absurd hi (Nat.not_lt_zero _)
    · intro i hi
      exact absurd hi (Nat.not_lt_zero _)
  | succ k ih =>
    have hk : k < NUM_CELLS := hn
    obtain ⟨m, M, hrun, hm1, hm2, hm3, hM1, hM2, hM3⟩ := ih (Nat.le_of_lt hk)
    set c := pack.cell_voltages ⟨k, hk⟩ with hc
    refine ⟨if c < m then c else m, if c > M then c else M, ?_, ?_, ?_, ?_, ?_, ?_, ?_⟩
    · simp only [forLoop, hrun, Option.some_bind, stats_body_fl, arrayIdx_of_lt _ _ hk,
        runningSum, dif_pos hk]
      refine congrArg some (Prod.ext ?_ ?_)
      · simp only [← hc]
        by_cases h1 : c < m <;> by_cases h2 : c > M <;> simp [h1, h2]
      · simp only [← hc]
        by_cases h1 : c < m <;> by_cases h2 : c > M <;> simp [h1, h2, ← hc]
    · by_cases h1 : c < m
      · simp only [h1, if_true]
        exact le_trans (le_of_lt h1) hm1
      · simpa [h1] using hm1
    · intro i hi
      by_cases hik : i.val < k
      · have := hm2 i hik
        by_cases h1 : c < m
        · simp only [h1, if_true]
          exact le_trans (le_of_lt h1) this
        · simpa [h1] using this
      · have hi2 : i = ⟨k, hk⟩ := Fin.ext (by show i.val = k; omega)
        rw [hi2, ← hc]
        by_cases h1 : c < m
        · simp [h1]
        · simpa [h1] using not_lt.mp h1
    · by_cases h1 : c < m
      · exact Or.inr ⟨⟨k, hk⟩, Nat.lt_succ_self k, by simp [h1, hc]⟩
      · simp only [h1, if_false]
        rcases hm3 with h | ⟨i, hi, h⟩
        · exact Or.inl h
        · exact Or.inr ⟨i, Nat.lt_succ_of_lt hi, h⟩
    · by_cases h1 : c > M
      · simp only [h1, if_true]
        exact le_trans hM1 (le_of_lt h1)
      · simpa [h1] using hM1
    · intro i hi
      by_cases hik : i.val < k
      · have := hM2 i hik
        by_cases h1 : c > M
        · simp only [h1, if_true]
          exact le_trans this (le_of_lt h1)
        · simpa [h1] using this
      · have hi2 : i = ⟨k, hk⟩ := Fin.ext (by show i.val = k; omega)
        rw [hi2, ← hc]
        by_cases h1 : c > M
        · simp [h1]
        · simpa [h1] using not_lt.mp h1
    · by_cases h1 : c > M
      · exact Or.inr ⟨⟨k, hk⟩, Nat.lt_succ_self k, by simp [h1, hc]⟩
      · simp only [h1, if_false]
        rcases hM3 with h | ⟨i, hi, h⟩
        · exact Or.inl h
        · exact Or.inr ⟨i, Nat.lt_succ_of_lt hi, h⟩

theorem calculate_pack_stats_fl_eq (rnd : ℚ → ℚ) (idx : Nat) (h : idx < NUM_PACKS)
    (s : Sniffer) :
    ∃ m M : ℚ,
      calculate_pack_stats_fl rnd idx s =
        some (s.setPack ⟨idx, h⟩ (statsPack_fl rnd (s.pack_data_ ⟨idx, h⟩) m M)) ∧
      (∀ i, m ≤ (s.pack_data_ ⟨idx, h⟩).cell_voltages i) ∧
      (∃ i, m = (s.pack_data_ ⟨idx, h⟩).cell_voltages i) ∧
      (∀ i, (s.pack_data_ ⟨idx, h⟩).cell_voltages i ≤ M) ∧
      (∃ i, M = (s.pack_data_ ⟨idx, h⟩).cell_voltages i) := by
  have h0 : 0 < NUM_CELLS := by decide
  obtain ⟨m, M, hrun, -, hm2, hm3, -, hM2, hM3⟩ :=
    forLoop_stats_fl rnd { s.pack_data_ ⟨idx, h⟩ with
      min_cell_v := (s.pack_data_ ⟨idx, h⟩).cell_voltages ⟨0, h0⟩,
      max_cell_v := (s.pack_data_ ⟨idx, h⟩).cell_voltages ⟨0, h0⟩ } NUM_CELLS (le_refl _)
  refine ⟨m, M, ?_, fun i => hm2 i i.isLt, ?_, fun i => hM2 i i.isLt, ?_⟩
  · simp only [calculate_pack_stats_fl, ge_iff_le, Nat.not_le.mpr h, if_false,
      arrayIdx_of_lt _ _ h, Option.some_bind, arrayIdx_of_lt _ _ h0, hrun]
    simp [statsPack_fl]
  · rcases hm3 with h1 | ⟨i, -, h1⟩
    · exact ⟨⟨0, h0⟩, h1⟩
    · exact ⟨i, h1⟩
  · rcases hM3 with h1 | ⟨i, -, h1⟩
    · exact ⟨⟨0, h0⟩, h1⟩
    · exact ⟨i, h1⟩

theorem stats_publish_fl (rnd : ℚ → ℚ) (idx : Nat) (h : idx < NUM_PACKS) (s : Sniffer)
    (pack : PackData) (hv : pack.valid = true) :
    ∃ (m M : ℚ) (temps cells : List ℚ),
      ((calculate_pack_stats_fl rnd idx (s.setPack ⟨idx, h⟩ pack)).bind fun s1 =>
        (publish_pack_data idx s1).bind fun s2 => some (s2, true)) =
        some (s.written ⟨idx, h⟩ (statsPack_fl rnd pack m M) temps cells, true) ∧
      (∀ i, m ≤ pack.cell_voltages i) ∧ (∃ i, m = pack.cell_voltages i) ∧
      (∀ i, pack.cell_voltages i ≤ M) ∧ (∃ i, M = pack.cell_voltages i) := by
  obtain ⟨m, M, hc, h1, h2, h3, h4⟩ :=
    calculate_pack_stats_fl_eq rnd idx h (s.setPack ⟨idx, h⟩ pack)
  rw [setPack_get] at hc h1 h2 h3 h4
  rw [setPack_setPack] at hc
  obtain ⟨temps, cells, hp⟩ := publish_pack_data_valid idx h
    (s.setPack ⟨idx, h⟩ (statsPack_fl rnd pack m M)) (by rw [setPack_get]; exact hv)
  rw [setPack_get] at hp
  refine ⟨m, M, temps, cells, ?_, h1, h2, h3, h4⟩
  rw [hc, Option.some_bind, hp, Option.some_bind]
  rfl

/-- A decode of a frame of at least 135 bytes with the tag, in the rounded reading:
the slot it writes is some pack with the frame's cells, then its statistics. -/
theorem decode_some_fl (rnd : ℚ → ℚ) (now : Nat) (frame : List Nat) (a : Nat) (s : Sniffer)
    (hlen : 135 ≤ frame.length) (hidx : (a + 255) % 256 < NUM_PACKS) (htag : HasTag1096 frame) :
    ∃ (pack : PackData) (m M : ℚ) (temps cells : List ℚ),
      decode_analog_data_fl rnd now frame a s =
        some (s.written ⟨(a + 255) % 256, hidx⟩ (statsPack_fl rnd pack m M) temps cells, true) ∧
      pack.cell_voltages = cellsOf_fl rnd frame ∧
      (∀ i, m ≤ pack.cell_voltages i) ∧ (∃ i, m = pack.cell_voltages i) ∧
      (∀ i, pack.cell_voltages i ≤ M) ∧ (∃ i, M = pack.cell_voltages i) := by
  rw [decode_accept_fl rnd now frame a s hlen hidx htag]
  by_cases h165 : frame.length < 165
  · rw [if_pos h165]
    obtain ⟨m, M, temps, cells, h, hs⟩ := stats_publish_fl rnd _ hidx s
      { s.pack_data_ ⟨(a + 255) % 256, hidx⟩ with
        cell_voltages := cellsOf_fl rnd frame
        temperatures := tempsOf_fl rnd frame
        valid := true } rfl
    exact ⟨_, m, M, temps, cells, h, rfl, hs⟩
  · rw [if_neg h165]
    obtain ⟨m, M, temps, cells, h, hs⟩ := stats_publish_fl rnd _ hidx s
      { s.pack_data_ ⟨(a + 255) % 256, hidx⟩ with
        cell_voltages := cellsOf_fl rnd frame
        temperatures := tempsOf_fl rnd frame
        voltage := rnd ((wordAt frame 119 : ℚ) / 100)
        remaining_cap := rnd ((wordAt frame 123 : ℚ) / 100)
        soc := (wordAt frame 127 >>> 8) &&& 0xFF
        full_cap := rnd ((wordAt frame 131 : ℚ) / 100)
        soh := 100
        design_cap := 100
        cycles := 0
        current := 0
        valid := true
        last_update := now } rfl
    exact ⟨_, m, M, temps, cells, h, rfl, hs⟩

theorem decode_true_inv_fl (rnd : ℚ → ℚ) (now : Nat) (frame : List Nat) (a : Nat)
    (s : Sniffer)
    (h : (decode_analog_data_fl rnd now frame a s).map Prod.snd = some true) :
    135 ≤ frame.length ∧ (a + 255) % 256 < NUM_PACKS ∧ HasTag1096 frame := by
  by_contra hc
  have hr : frame.length < 135 ∨ NUM_PACKS ≤ (a + 255) % 256 ∨ ¬ HasTag1096 frame := by
    by_cases h1 : frame.length < 135
    · exact Or.inl h1
    by_cases h2 : NUM_PACKS ≤ (a + 255) % 256
    · exact Or.inr (Or.inl h2)
    refine Or.inr (Or.inr fun h3 => hc ⟨by omega, by omega, h3⟩)
  rw [decode_reject_fl rnd now frame a s hr] at h
  simp at h

theorem statsPack_fl_fields (rnd : ℚ → ℚ) (pack : PackData) (m M : ℚ) :
    (statsPack_fl rnd pack m M).cell_voltages = pack.cell_voltages ∧
    (statsPack_fl rnd pack m M).min_cell_v = m ∧
    (statsPack_fl rnd pack m M).max_cell_v = M ∧
    (statsPack_fl rnd pack m M).avg_cell_v =
      rnd (runningSum rnd pack.cell_voltages NUM_CELLS / 16) ∧
    (statsPack_fl rnd pack m M).delta_cell_v = rnd (M - m) :=
  ⟨rfl, rfl, rfl, rfl, rfl⟩

/-! ## Lemmas on the binary32 rounding -/

theorem pow2_pos (e : Int) : 0 < pow2 e := by
  cases e with
  | ofNat n =>
    show (0 : ℚ) < ((2 ^ n : Nat) : ℚ)
    exact_mod_cast Nat.pow_pos (by decide : 0 < 2)
  | negSucc n =>
    show (0 : ℚ) < 1 / ((2 ^ (n + 1) : Nat) : ℚ)
    apply div_pos one_pos
    exact_mod_cast Nat.pow_pos (by decide : 0 < 2)

theorem roundNearestEven_nonneg (y : ℚ) (h : 0 ≤ y) : 0 ≤ roundNearestEven y := by
  have hf : 0 ≤ ⌊y⌋ := Int.floor_nonneg.mpr h
  unfold roundNearestEven
  simp only []
  split_ifs <;> omega

/-- Known binary32 values: 0.1 and 3.3 (bit patterns 0x3DCCCCCD and 0x40533333), one
third, the ties 2^24 + 1 and 2^24 + 3, and a number that is already binary32. -/
theorem f32_known_values :
    f32 (1 / 10) = 13421773 / 134217728 ∧ f32 (33 / 10) = 13841203 / 4194304 ∧
    f32 (1 / 3) = 11184811 / 33554432 ∧ f32 16777217 = 16777216 ∧
    f32 16777219 = 16777220 ∧ f32 (13841203 / 4194304) = 13841203 / 4194304 := by
  decide!

theorem f32_zero : f32 0 = 0 := by
  simp [f32]

theorem f32_nonneg (x : ℚ) (h : 0 ≤ x) : 0 ≤ f32 x := by
  unfold f32
  split_ifs with h0
  · exact le_refl _
  · simp only []
    have hu := pow2_pos (max (ilog2 x) (-126) - 23)
    have hy : 0 ≤ x / pow2 (max (ilog2 x) (-126) - 23) := div_nonneg h (le_of_lt hu)
    have hr := roundNearestEven_nonneg _ hy
    exact mul_nonneg (by exact_mod_cast hr) (le_of_lt hu)

/-- The statistics of the slot after a decode that returned `true`, in the rounded
reading, for a rounding that keeps non-negative numbers non-negative. -/
theorem decode_stats_fl (rnd : ℚ → ℚ) (hrnd : ∀ x, 0 ≤ x → 0 ≤ rnd x) (now : Nat)
    (frame : List Nat) (a : Nat) (s s' : Sniffer) (h1 : 1 ≤ a) (h8 : a ≤ 8)
    (hdec : decode_analog_data_fl rnd now frame a s = some (s', true))
    (p : Fin NUM_PACKS) (hp : p.val = a - 1) :
    (∀ i, (s'.pack_data_ p).min_cell_v ≤ (s'.pack_data_ p).cell_voltages i) ∧
    (∃ i, (s'.pack_data_ p).min_cell_v = (s'.pack_data_ p).cell_voltages i) ∧
    (∀ i, (s'.pack_data_ p).cell_voltages i ≤ (s'.pack_data_ p).max_cell_v) ∧
    (∃ i, (s'.pack_data_ p).max_cell_v = (s'.pack_data_ p).cell_voltages i) ∧
    (s'.pack_data_ p).min_cell_v ≤ (s'.pack_data_ p).max_cell_v ∧
    (s'.pack_data_ p).delta_cell_v =
      rnd ((s'.pack_data_ p).max_cell_v - (s'.pack_data_ p).min_cell_v) ∧
    0 ≤ (s'.pack_data_ p).delta_cell_v ∧
    (s'.pack_data_ p).avg_cell_v =
      rnd (runningSum rnd (s'.pack_data_ p).cell_voltages NUM_CELLS / 16) := by
  have hret : (decode_analog_data_fl rnd now frame a s).map Prod.snd = some true := by
    rw [hdec]
    rfl
  obtain ⟨hlen, hidx, htag⟩ := decode_true_inv_fl rnd now frame a s hret
  obtain ⟨pack, m, M, temps, cells, hdec2, -, hm1, hm2, hM1, hM2⟩ :=
    decode_some_fl rnd now frame a s hlen hidx htag
  rw [idx_fin_eq a h1 h8 p hp hidx, hdec] at hdec2
  have hs : s' = s.written p (statsPack_fl rnd pack m M) temps cells :=
    (Prod.mk.inj (Option.some.inj hdec2)).1
  obtain ⟨f1, f2, f3, f4, f5⟩ := statsPack_fl_fields rnd pack m M
  obtain ⟨i0, hi0⟩ := hm2
  have hmM : m ≤ M := by
    rw [hi0]
    exact hM1 i0
  rw [hs, written_get, f1, f2, f3, f4, f5]
  exact ⟨hm1, ⟨i0, hi0⟩, hM1, hM2, hmM, rfl, hrnd _ (sub_nonneg.mpr hmM), rfl⟩

theorem runningSum_succ (rnd : ℚ → ℚ) (c : Fin NUM_CELLS → ℚ) (k : Nat) (hk : k < NUM_CELLS) :
    runningSum rnd c (k + 1) = rnd (runningSum rnd c k + c ⟨k, hk⟩) := by
  rw [runningSum, dif_pos hk]

/-- The float32 running sum of sixteen cells that all hold 13841203/4194304, the
float32 nearest to 3.3: the sixteen partial sums, each rounded. -/
theorem runningSum_sample (c : Fin NUM_CELLS → ℚ) (hc : ∀ i, c i = 13841203 / 4194304) :
    runningSum f32 c 16 = 13841201 / 262144 := by
  have e0 : runningSum f32 c 0 = 0 := rfl
  have e1 : runningSum f32 c 1 = 13841203 / 4194304 := by
    rw [runningSum_succ f32 c 0 (by decide), e0, hc]
    decide!
  have e2 : runningSum f32 c 2 = 13841203 / 2097152 := by
    rw [runningSum_succ f32 c 1 (by decide), e1, hc]
    decide!
  have e3 : runningSum f32 c 3 = 5190451 / 524288 := by
    rw [runningSum_succ f32 c 2 (by decide), e2, hc]
    decide!
  have e4 : runningSum f32 c 4 = 13841203 / 1048576 := by
    rw [runningSum_succ f32 c 3 (by decide), e3, hc]
    decide!
  have e5 : runningSum f32 c 5 = 33 / 2 := by
    rw [runningSum_succ f32 c 4 (by decide), e4, hc]
    decide!
  have e6 : runningSum f32 c 6 = 5190451 / 262144 := by
    rw [runningSum_succ f32 c 5 (by decide), e5, hc]
    decide!
  have e7 : runningSum f32 c 7 = 3027763 / 131072 := by
    rw [runningSum_succ f32 c 6 (by decide), e6, hc]
    decide!
  have e8 : runningSum f32 c 8 = 6920601 / 262144 := by
    rw [runningSum_succ f32 c 7 (by decide), e7, hc]
    decide!
  have e9 : runningSum f32 c 9 = 1946419 / 65536 := by
    rw [runningSum_succ f32 c 8 (by decide), e8, hc]
    decide!
  have e10 : runningSum f32 c 10 = 8650751 / 262144 := by
    rw [runningSum_succ f32 c 9 (by decide), e9, hc]
    decide!
  have e11 : runningSum f32 c 11 = 4757913 / 131072 := by
    rw [runningSum_succ f32 c 10 (by decide), e10, hc]
    decide!
  have e12 : runningSum f32 c 12 = 10380901 / 262144 := by
    rw [runningSum_succ f32 c 11 (by decide), e11, hc]
    decide!
  have e13 : runningSum f32 c 13 = 1405747 / 32768 := by
    rw [runningSum_succ f32 c 12 (by decide), e12, hc]
    decide!
  have e14 : runningSum f32 c 14 = 12111051 / 262144 := by
    rw [runningSum_succ f32 c 13 (by decide), e13, hc]
    decide!
  have e15 : runningSum f32 c 15 = 6488063 / 131072 := by
    rw [runningSum_succ f32 c 14 (by decide), e14, hc]
    decide!
  have e16 : runningSum f32 c 16 = 13841201 / 262144 := by
    rw [runningSum_succ f32 c 15 (by decide), e15, hc]
    decide!
  exact e16

/-- A frame of at least 135 bytes with the tag whose 16 cell fields are all `c` and
whose 6 temperature fields are all `t`: what its decode leaves in the slot. -/
theorem decode_uniform_fields (now : Nat) (frame : List Nat) (a : Nat) (s : Sniffer)
    (c t : List Nat) (hlen : 135 ≤ frame.length)
    (htag : (frame.drop 9).take 4 = [49, 48, 57, 54])
    (hc : ∀ i, i < 16 → (frame.drop (21 + 4 * i)).take 4 = c)
    (ht : ∀ j, j < 6 → (frame.drop (86 + 5 * j)).take 4 = t)
    (h1 : 1 ≤ a) (h8 : a ≤ 8) (p : Fin NUM_PACKS) (hp : p.val = a - 1) :
    ∃ s' wc wt, decode_analog_data now frame a s = some (s', true) ∧
      parse_hex_word c = some wc ∧ parse_hex_word t = some wt ∧
      (∀ i, (s'.pack_data_ p).cell_voltages i = (wc : ℚ) / 1000) ∧
      (s'.pack_data_ p).min_cell_v = (wc : ℚ) / 1000 ∧
      (s'.pack_data_ p).max_cell_v = (wc : ℚ) / 1000 ∧
      (s'.pack_data_ p).delta_cell_v = 0 ∧
      (∀ j, (s'.pack_data_ p).temperatures j = (wt : ℚ) / 100) ∧
      (s'.pack_data_ p).valid = true := by
  have hidx : (a + 255) % 256 < NUM_PACKS := by
    show (a + 255) % 256 < 8
    omega
  have htag2 := (hasTag_iff_slice frame (by omega)).mpr htag
  obtain ⟨pack, m, M, temps, cells, hdec, hpack, -, ⟨im, hm⟩, -, ⟨iM, hM⟩⟩ :=
    decode_some_eq now frame a s hlen hidx htag2
  rw [idx_fin_eq a h1 h8 p hp hidx] at hdec hpack
  have hwc := wordAt_of_slice frame 21 c (by omega) (hc 0 (by omega))
  have hwt := wordAt_of_slice frame 86 t (by omega) (ht 0 (by omega))
  have hcells : ∀ i, cellsOf frame i = (wordAt frame 21 : ℚ) / 1000 := by
    intro i
    obtain ⟨w, hw, he⟩ := cellsOf_slice frame hlen i
    rw [hc i.val i.isLt, hwc] at hw
    rw [he, ← Option.some.inj hw]
  have htemps : ∀ j, tempsOf frame j = (wordAt frame 86 : ℚ) / 100 := by
    intro j
    obtain ⟨w, hw, he⟩ := tempsOf_slice frame hlen j
    rw [ht j.val j.isLt, hwt] at hw
    rw [he, ← Option.some.inj hw]
  have hfields : pack.cell_voltages = cellsOf frame ∧ pack.temperatures = tempsOf frame ∧
      pack.min_cell_v = m ∧ pack.max_cell_v = M ∧
      pack.delta_cell_v = M - m ∧ pack.valid = true := by
    rcases hpack with ⟨h, -⟩ | ⟨h, -⟩ <;> rw [h] <;> exact ⟨rfl, rfl, rfl, rfl, rfl, rfl⟩
  obtain ⟨f1, f2, f3, f4, f6, f7⟩ := hfields
  refine ⟨_, wordAt frame 21, wordAt frame 86, hdec, hwc, hwt, ?_, ?_, ?_, ?_, ?_, ?_⟩
  · intro i
    rw [written_get, f1, hcells i]
  · rw [written_get, f3, hm, hcells im]
  · rw [written_get, f4, hM, hcells iM]
  · rw [written_get, f6, hm, hM, hcells im, hcells iM, sub_self]
  · intro j
    rw [written_get, f2, htemps j]
  · rw [written_get, f7]

/-! ## The claims -/

/-- C1: when `decode_analog_data` returns `true` for a frame and a pack address
`a` in 1..8, slot `a - 1` afterwards holds, for every cell `i`, the word parsed from
frame bytes `21 + 4 i .. 24 + 4 i` divided by 1000, and for every sensor `j` the word
parsed from frame bytes `86 + 5 j .. 89 + 5 j` divided by 100. -/
theorem decode_analog_data_cells_and_temps (now : Nat) (frame : List Nat) (a : Nat)
    (s : Sniffer) (h1 : 1 ≤ a) (h8 : a ≤ 8)
    (hret : (decode_analog_data now frame a s).map Prod.snd = some true)
    (p : Fin NUM_PACKS) (hp : p.val = a - 1) :
    ∃ s', decode_analog_data now frame a s = some (s', true) ∧
      (∀ i : Fin NUM_CELLS, ∃ w,
        parse_hex_word ((frame.drop (21 + 4 * i.val)).take 4) = some w ∧
        (s'.pack_data_ p).cell_voltages i = (w : ℚ) / 1000) ∧
      (∀ j : Fin NUM_TEMPS, ∃ w,
        parse_hex_word ((frame.drop (86 + 5 * j.val)).take 4) = some w ∧
        (s'.pack_data_ p).temperatures j = (w : ℚ) / 100) := by
  obtain ⟨hlen, hidx, htag⟩ := decode_true_inv now frame a s hret
  obtain ⟨pack, m, M, temps, cells, hdec, hpack, -⟩ := decode_some_eq now frame a s hlen hidx htag
  have hpe := idx_fin_eq a h1 h8 p hp hidx
  rw [hpe] at hdec hpack
  refine ⟨_, hdec, ?_, ?_⟩
  · intro i
    rw [written_get]
    have hc : pack.cell_voltages = cellsOf frame := by
      rcases hpack with ⟨h, -⟩ | ⟨h, -⟩ <;> rw [h] <;> rfl
    rw [hc]
    exact cellsOf_slice frame hlen i
  · intro j
    rw [written_get]
    have hc : pack.temperatures = tempsOf frame := by
      rcases hpack with ⟨h, -⟩ | ⟨h, -⟩ <;> rw [h] <;> rfl
    rw [hc]
    exact tempsOf_slice frame hlen j

set_option maxRecDepth 100000 in
/-- C1 at the full sample frame for pack 1, decoded into the initial state. -/
theorem decode_analog_data_cells_and_temps_witness :
    (decode_analog_data 7 (sampleFrame chars03E8 chars0BB8 sampleExt) 1 Sniffer.init).map
        Prod.snd = some true ∧
    ∃ s', decode_analog_data 7 (sampleFrame chars03E8 chars0BB8 sampleExt) 1 Sniffer.init =
        some (s', true) ∧
      (∀ i : Fin NUM_CELLS, ∃ w,
        parse_hex_word (((sampleFrame chars03E8 chars0BB8 sampleExt).drop
          (21 + 4 * i.val)).take 4) = some w ∧
        (s'.pack_data_ 0).cell_voltages i = (w : ℚ) / 1000) ∧
      (∀ j : Fin NUM_TEMPS, ∃ w,
        parse_hex_word (((sampleFrame chars03E8 chars0BB8 sampleExt).drop
          (86 + 5 * j.val)).take 4) = some w ∧
        (s'.pack_data_ 0).temperatures j = (w : ℚ) / 100) :=
  ⟨by decide!, decode_analog_data_cells_and_temps 7 (sampleFrame chars03E8 chars0BB8 sampleExt) 1
    Sniffer.init (by decide) (by decide) (by decide!) 0 (by decide)⟩

set_option maxRecDepth 100000 in
/-- C2 as stated fails twice: the frame with the tag, 16 cell fields 03E8 and 6
temperature entries 0BB8 that ends after the temperature section (115 bytes, so at
least 50) is refused and the slot stays invalid; and the same frame with 50 further
bytes is decoded to cell voltages 59.395 and temperatures 471.15, not 1.0 and 30.0. -/
theorem decode_sample_03E8_counterexample :
    50 ≤ (sampleFrame chars03E8 chars0BB8 []).length ∧
    ((sampleFrame chars03E8 chars0BB8 []).drop 9).take 4 = [49, 48, 57, 54] ∧
    (∀ i, i < 16 → ((sampleFrame chars03E8 chars0BB8 []).drop (21 + 4 * i)).take 4 = chars03E8) ∧
    (∀ j, j < 6 → ((sampleFrame chars03E8 chars0BB8 []).drop (86 + 5 * j)).take 4 = chars0BB8) ∧
    decode_analog_data 7 (sampleFrame chars03E8 chars0BB8 []) 1 Sniffer.init =
      some (Sniffer.init, false) ∧
    (Sniffer.init.pack_data_ 0).valid = false ∧
    ∃ s', decode_analog_data 7 (sampleFrame chars03E8 chars0BB8 sampleExt) 1 Sniffer.init =
        some (s', true) ∧
      (∀ i, (s'.pack_data_ 0).cell_voltages i = 59395 / 1000) ∧
      (∀ j, (s'.pack_data_ 0).temperatures j = 47115 / 100) ∧
      (s'.pack_data_ 0).min_cell_v ≠ 1 := by
  refine ⟨by decide, by decide, by decide, by decide,
    decode_reject _ _ _ _ (Or.inl (by decide)), rfl, ?_⟩
  have hlen : 165 ≤ (sampleFrame chars03E8 chars0BB8 sampleExt).length := by decide
  have hidx : (1 + 255) % 256 < NUM_PACKS := by decide
  have htag : HasTag1096 (sampleFrame chars03E8 chars0BB8 sampleExt) := by
    unfold HasTag1096
    decide
  obtain ⟨m, M, temps, cells, hdec, -, ⟨i, hm⟩, -, -⟩ :=
    decode_full_eq 7 (sampleFrame chars03E8 chars0BB8 sampleExt) 1 Sniffer.init hlen hidx htag
  have hcells : ∀ i, cellsOf (sampleFrame chars03E8 chars0BB8 sampleExt) i = 59395 / 1000 := by
    decide!
  have htemps : ∀ j, tempsOf (sampleFrame chars03E8 chars0BB8 sampleExt) j = 47115 / 100 := by
    decide!
  refine ⟨_, hdec, ?_, ?_, ?_⟩
  · intro i
    exact hcells i
  · intro j
    exact htemps j
  · show m ≠ 1
    rw [hm, hcells i]
    norm_num

/-- C2, amended: for every frame of at least 135 bytes with the tag 1096 at bytes
9..12, whose 16 cell fields from offset 21 are each 03E8 and whose 6 temperature
entries are each one status byte followed by 0BB8, decoding for a pack address in
1..8 succeeds and leaves in that slot every cell voltage equal to
`parse_hex_word "03E8" / 1000`, `min_cell_v = max_cell_v` equal to that value,
`delta_cell_v = 0`, every temperature equal to `parse_hex_word "0BB8" / 100`, and
`valid = true`. Nothing is said of `avg_cell_v`, which the code computes from a
rounded running sum. -/
theorem decode_uniform_frame (now : Nat) (frame : List Nat) (a : Nat) (s : Sniffer)
    (hlen : 135 ≤ frame.length)
    (htag : (frame.drop 9).take 4 = [49, 48, 57, 54])
    (hc : ∀ i, i < 16 → (frame.drop (21 + 4 * i)).take 4 = chars03E8)
    (ht : ∀ j, j < 6 → (frame.drop (86 + 5 * j)).take 4 = chars0BB8)
    (h1 : 1 ≤ a) (h8 : a ≤ 8) (p : Fin NUM_PACKS) (hp : p.val = a - 1) :
    ∃ s' wc wt, decode_analog_data now frame a s = some (s', true) ∧
      parse_hex_word chars03E8 = some wc ∧ parse_hex_word chars0BB8 = some wt ∧
      (∀ i, (s'.pack_data_ p).cell_voltages i = (wc : ℚ) / 1000) ∧
      (s'.pack_data_ p).min_cell_v = (wc : ℚ) / 1000 ∧
      (s'.pack_data_ p).max_cell_v = (wc : ℚ) / 1000 ∧
      (s'.pack_data_ p).delta_cell_v = 0 ∧
      (∀ j, (s'.pack_data_ p).temperatures j = (wt : ℚ) / 100) ∧
      (s'.pack_data_ p).valid = true :=
  decode_uniform_fields now frame a s chars03E8 chars0BB8 hlen htag hc ht h1 h8 p hp

set_option maxRecDepth 100000 in
/-- C2, amended, at the full sample frame with cell fields 03E8 and temperature
fields 0BB8, decoded for pack 1 into the initial state. -/
theorem decode_uniform_frame_witness :
    135 ≤ (sampleFrame chars03E8 chars0BB8 sampleExt).length ∧
    ∃ s' wc wt, decode_analog_data 7 (sampleFrame chars03E8 chars0BB8 sampleExt) 1
        Sniffer.init = some (s', true) ∧
      parse_hex_word chars03E8 = some wc ∧ parse_hex_word chars0BB8 = some wt ∧
      (∀ i, (s'.pack_data_ 0).cell_voltages i = (wc : ℚ) / 1000) ∧
      (s'.pack_data_ 0).min_cell_v = (wc : ℚ) / 1000 ∧
      (s'.pack_data_ 0).max_cell_v = (wc : ℚ) / 1000 ∧
      (s'.pack_data_ 0).delta_cell_v = 0 ∧
      (∀ j, (s'.pack_data_ 0).temperatures j = (wt : ℚ) / 100) ∧
      (s'.pack_data_ 0).valid = true :=
  ⟨by decide, decode_uniform_frame 7 (sampleFrame chars03E8 chars0BB8 sampleExt) 1 Sniffer.init
    (by decide) (by decide) (by decide) (by decide) (by decide) (by decide) 0 (by decide)⟩

/-- C3: `process_frame` returns the state it was given, PackStore and publication
trace alike, whenever the frame is shorter than 15 bytes, or bytes 1..2 are not 25
(for instance 24), or the decoded address is outside 1..8, or the decoded command
is not 0x46, or bytes 7..8 are not 00, or bytes 9..12 are not 1096, or the frame is
shorter than 135 bytes. -/
theorem process_frame_rejects (now : Nat) (frame : List Nat) (s : Sniffer)
    (h : frame.length < 15 ∨ (frame.drop 1).take 2 ≠ [50, 53] ∨
      ¬ (1 ≤ frameAddr frame ∧ frameAddr frame ≤ 8) ∨ frameCmd frame ≠ 0x46 ∨
      (frame.drop 7).take 2 ≠ [48, 48] ∨ (frame.drop 9).take 4 ≠ [49, 48, 57, 54] ∨
      frame.length < 21 + 16 * 4 + 6 * 5 + 20) :
    process_frame now frame s = some s := by
  by_cases h15 : frame.length < 15
  · simp [process_frame, h15]
  rw [process_frame_eq now frame s (by omega)]
  split_ifs with hc
  · obtain ⟨c1, ca1, ca8, cc, c7⟩ := hc
    have hr : frame.length < 135 ∨ NUM_PACKS ≤ (frameAddr frame + 255) % 256 ∨
        ¬ HasTag1096 frame := by
      rcases h with h | h | h | h | h | h | h
      · exact absurd h h15
      · exact absurd c1 h
      · exact absurd ⟨ca1, ca8⟩ h
      · exact absurd cc h
      · exact absurd c7 h
      · exact Or.inr (Or.inr fun ht => h ((hasTag_iff_slice frame (by omega)).mp ht))
      · exact Or.inl h
    rw [decode_reject now frame _ s hr]
    rfl
  · rfl

set_option maxRecDepth 100000 in
/-- C3 at the sample frame with version 24, otherwise of valid shape and full length:
the initial state is returned as it was. -/
theorem process_frame_rejects_witness :
    ((sampleFrame24.drop 1).take 2 ≠ [50, 53] ∧ sampleFrame24.length = 165) ∧
    process_frame 7 sampleFrame24 Sniffer.init = some Sniffer.init :=
  ⟨⟨by decide, by decide⟩,
    process_frame_rejects 7 sampleFrame24 Sniffer.init (Or.inr (Or.inl (by decide)))⟩

/-- C4: for every frame with the tag 1096 at bytes 9..12 and length `L` with
`135 ≤ L < 165`, `decode_analog_data` for a pack address in 1..8 returns `true`,
sets `valid`, stores the 16 cell voltages and 6 temperatures read from the frame,
recomputes the derived statistics from them (least, greatest, mean, difference), and
leaves `voltage`, `remaining_cap`, `soc`, `full_cap`, `design_cap`, `soh`, `cycles`
and `current` of the slot as they were. -/
theorem decode_partial_fallback (now : Nat) (frame : List Nat) (a : Nat) (s : Sniffer)
    (htag : (frame.drop 9).take 4 = [49, 48, 57, 54])
    (hlen : 135 ≤ frame.length) (h165 : frame.length < 165)
    (h1 : 1 ≤ a) (h8 : a ≤ 8) (p : Fin NUM_PACKS) (hp : p.val = a - 1) :
    ∃ s', decode_analog_data now frame a s = some (s', true) ∧
      (s'.pack_data_ p).valid = true ∧
      (∀ i : Fin NUM_CELLS, ∃ w,
        parse_hex_word ((frame.drop (21 + 4 * i.val)).take 4) = some w ∧
        (s'.pack_data_ p).cell_voltages i = (w : ℚ) / 1000) ∧
      (∀ j : Fin NUM_TEMPS, ∃ w,
        parse_hex_word ((frame.drop (86 + 5 * j.val)).take 4) = some w ∧
        (s'.pack_data_ p).temperatures j = (w : ℚ) / 100) ∧
      (∀ i, (s'.pack_data_ p).min_cell_v ≤ (s'.pack_data_ p).cell_voltages i) ∧
      (∃ i, (s'.pack_data_ p).min_cell_v = (s'.pack_data_ p).cell_voltages i) ∧
      (∀ i, (s'.pack_data_ p).cell_voltages i ≤ (s'.pack_data_ p).max_cell_v) ∧
      (∃ i, (s'.pack_data_ p).max_cell_v = (s'.pack_data_ p).cell_voltages i) ∧
      (s'.pack_data_ p).avg_cell_v =
        (∑ i : Fin NUM_CELLS, (s'.pack_data_ p).cell_voltages i) / 16 ∧
      (s'.pack_data_ p).delta_cell_v =
        (s'.pack_data_ p).max_cell_v - (s'.pack_data_ p).min_cell_v ∧
      (s'.pack_data_ p).voltage = (s.pack_data_ p).voltage ∧
      (s'.pack_data_ p).remaining_cap = (s.pack_data_ p).remaining_cap ∧
      (s'.pack_data_ p).soc = (s.pack_data_ p).soc ∧
      (s'.pack_data_ p).full_cap = (s.pack_data_ p).full_cap ∧
      (s'.pack_data_ p).design_cap = (s.pack_data_ p).design_cap ∧
      (s'.pack_data_ p).soh = (s.pack_data_ p).soh ∧
      (s'.pack_data_ p).cycles = (s.pack_data_ p).cycles ∧
      (s'.pack_data_ p).current = (s.pack_data_ p).current := by
  have hidx : (a + 255) % 256 < NUM_PACKS := by
    show (a + 255) % 256 < 8
    omega
  have htag2 := (hasTag_iff_slice frame (by omega)).mpr htag
  obtain ⟨m, M, temps, cells, hdec, hm1, hm2, hM1, hM2⟩ :=
    decode_partial_eq now frame a s hlen h165 hidx htag2
  rw [idx_fin_eq a h1 h8 p hp hidx] at hdec
  obtain ⟨f1, f2, f3, f4, f5, f6, f7, g1, g2, g3, g4, g5, g6, g7, g8, -⟩ :=
    partialPack_fields frame (s.pack_data_ p) m M
  refine ⟨_, hdec, ?_⟩
  rw [written_get, f1, f2, f3, f4, f5, f6, f7, g1, g2, g3, g4, g5, g6, g7, g8]
  exact ⟨rfl, cellsOf_slice frame hlen, tempsOf_slice frame hlen, hm1, hm2, hM1, hM2, rfl, rfl,
    rfl, rfl, rfl, rfl, rfl, rfl, rfl, rfl⟩

set_option maxRecDepth 100000 in
/-- C4 at the 135-byte sample frame, decoded for pack 1 into a state whose slot 0
holds earlier pack-level values: the decode succeeds and those values stay. -/
theorem decode_partial_fallback_witness :
    (135 ≤ samplePartial.length ∧ samplePartial.length < 165) ∧
    ∃ s', decode_analog_data 7 samplePartial 1 sampleState = some (s', true) ∧
      (s'.pack_data_ 0).valid = true ∧
      (s'.pack_data_ 0).voltage = (sampleState.pack_data_ 0).voltage ∧
      (s'.pack_data_ 0).soc = (sampleState.pack_data_ 0).soc := by
  refine ⟨by decide, ?_⟩
  obtain ⟨s', h, hv, -, -, -, -, -, -, -, -, hvolt, -, hsoc, -⟩ :=
    decode_partial_fallback 7 samplePartial 1 sampleState (by decide) (by decide) (by decide)
      (by decide) (by decide) 0 (by decide)
  exact ⟨s', h, hv, hvolt, hsoc⟩

set_option maxRecDepth 100000 in
/-- C5 as stated fails: the sample frame truncated right after the sixth
temperature entry (115 bytes, tag 1096, 16 cell fields, 6 temperature entries) is
refused for pack 1: `decode_analog_data` returns `false`, the state is the initial
one, and its slot 0 is not valid. -/
theorem decode_truncated_counterexample :
    sampleTruncated.length = 115 ∧
    (sampleTruncated.drop 9).take 4 = [49, 48, 57, 54] ∧
    decode_analog_data 7 sampleTruncated 1 Sniffer.init = some (Sniffer.init, false) ∧
    (Sniffer.init.pack_data_ 0).valid = false :=
  ⟨by decide, by decide, decode_reject _ _ _ _ (Or.inl (by decide)), rfl⟩

/-- C5, amended: a frame with the tag 1096, the 16 cell fields and the 6
temperature entries (at least 115 bytes) and fewer than 50 bytes after them, decoded
for a pack address in 1..8: with fewer than 20 bytes after the temperature section
(length below 135, so also length 115) the decode returns `false` and the state is
unchanged; with 20 to 49 bytes after it (length 135..164) the decode returns `true`
with `valid` set, the cells and temperatures of the frame stored, and pack voltage,
capacities and state of charge as they were. -/
theorem decode_truncated_after_temps (now : Nat) (frame : List Nat) (a : Nat) (s : Sniffer)
    (htag : (frame.drop 9).take 4 = [49, 48, 57, 54])
    (h115 : 115 ≤ frame.length) (h165 : frame.length < 165)
    (h1 : 1 ≤ a) (h8 : a ≤ 8) (p : Fin NUM_PACKS) (hp : p.val = a - 1) :
    (frame.length < 135 → decode_analog_data now frame a s = some (s, false)) ∧
    (135 ≤ frame.length →
      ∃ s', decode_analog_data now frame a s = some (s', true) ∧
        (s'.pack_data_ p).valid = true ∧
        (∀ i : Fin NUM_CELLS, ∃ w,
          parse_hex_word ((frame.drop (21 + 4 * i.val)).take 4) = some w ∧
          (s'.pack_data_ p).cell_voltages i = (w : ℚ) / 1000) ∧
        (∀ j : Fin NUM_TEMPS, ∃ w,
          parse_hex_word ((frame.drop (86 + 5 * j.val)).take 4) = some w ∧
          (s'.pack_data_ p).temperatures j = (w : ℚ) / 100) ∧
        (s'.pack_data_ p).voltage = (s.pack_data_ p).voltage ∧
        (s'.pack_data_ p).remaining_cap = (s.pack_data_ p).remaining_cap ∧
        (s'.pack_data_ p).full_cap = (s.pack_data_ p).full_cap ∧
        (s'.pack_data_ p).design_cap = (s.pack_data_ p).design_cap ∧
        (s'.pack_data_ p).soc = (s.pack_data_ p).soc) := by
  refine ⟨fun hlt => decode_reject now frame a s (Or.inl hlt), fun hlen => ?_⟩
  have hidx : (a + 255) % 256 < NUM_PACKS := by
    show (a + 255) % 256 < 8
    omega
  have htag2 := (hasTag_iff_slice frame (by omega)).mpr htag
  obtain ⟨m, M, temps, cells, hdec, -⟩ :=
    decode_partial_eq now frame a s hlen h165 hidx htag2
  rw [idx_fin_eq a h1 h8 p hp hidx] at hdec
  obtain ⟨f1, f2, f3, -, -, -, -, g1, g2, g3, g4, g5, -⟩ :=
    partialPack_fields frame (s.pack_data_ p) m M
  refine ⟨_, hdec, ?_⟩
  rw [written_get, f1, f2, f3, g1, g2, g3, g4, g5]
  exact ⟨rfl, cellsOf_slice frame hlen, tempsOf_slice frame hlen, rfl, rfl, rfl, rfl, rfl⟩

set_option maxRecDepth 100000 in
/-- C5, amended, at the 115-byte sample frame decoded for pack 1: it is refused and
the state is unchanged. -/
theorem decode_truncated_after_temps_witness :
    (sampleTruncated.length = 115 ∧ (sampleTruncated.drop 9).take 4 = [49, 48, 57, 54]) ∧
    decode_analog_data 7 sampleTruncated 1 sampleState = some (sampleState, false) :=
  ⟨by decide, (decode_truncated_after_temps 7 sampleTruncated 1 sampleState (by decide)
    (by decide) (by decide) (by decide) (by decide) 0 (by decide)).1 (by decide)⟩

/-- C6: for every frame with the tag 1096 at bytes 9..12 and at least 165 bytes,
decoded for a pack address in 1..8, the decode succeeds and the slot afterwards
holds `voltage`, `remaining_cap` and `full_cap` equal to the words parsed from bytes
119..122, 123..126 and 131..134 divided by 100, and the four placeholders
`soh = 100`, `design_cap = 100`, `cycles = 0`, `current = 0`. -/
theorem decode_full_extended_fields (now : Nat) (frame : List Nat) (a : Nat) (s : Sniffer)
    (htag : (frame.drop 9).take 4 = [49, 48, 57, 54]) (hlen : 165 ≤ frame.length)
    (h1 : 1 ≤ a) (h8 : a ≤ 8) (p : Fin NUM_PACKS) (hp : p.val = a - 1) :
    ∃ s' wv wr wf, decode_analog_data now frame a s = some (s', true) ∧
      parse_hex_word ((frame.drop 119).take 4) = some wv ∧
      parse_hex_word ((frame.drop 123).take 4) = some wr ∧
      parse_hex_word ((frame.drop 131).take 4) = some wf ∧
      (s'.pack_data_ p).voltage = (wv : ℚ) / 100 ∧
      (s'.pack_data_ p).remaining_cap = (wr : ℚ) / 100 ∧
      (s'.pack_data_ p).full_cap = (wf : ℚ) / 100 ∧
      (s'.pack_data_ p).soh = 100 ∧
      (s'.pack_data_ p).design_cap = 100 ∧
      (s'.pack_data_ p).cycles = 0 ∧
      (s'.pack_data_ p).current = 0 := by
  have hidx : (a + 255) % 256 < NUM_PACKS := by
    show (a + 255) % 256 < 8
    omega
  have htag2 := (hasTag_iff_slice frame (by omega)).mpr htag
  obtain ⟨m, M, temps, cells, hdec, -⟩ := decode_full_eq now frame a s hlen hidx htag2
  rw [idx_fin_eq a h1 h8 p hp hidx] at hdec
  obtain ⟨f1, f2, -, f4, f5, f6, f7, f8, -⟩ := fullPack_fields now frame (s.pack_data_ p) m M
  refine ⟨_, wordAt frame 119, wordAt frame 123, wordAt frame 131, hdec,
    parse_hex_word_slice frame 119 (by omega), parse_hex_word_slice frame 123 (by omega),
    parse_hex_word_slice frame 131 (by omega), ?_⟩
  rw [written_get, f1, f2, f4, f5, f6, f7, f8]
  exact ⟨rfl, rfl, rfl, rfl, rfl, rfl, rfl⟩

set_option maxRecDepth 100000 in
/-- C6 at the full sample frame, decoded for pack 1 into the initial state: the
fields A414, 2C13 and 0033 give 52.84, 49.08 and 130.56. -/
theorem decode_full_extended_fields_witness :
    165 ≤ sampleFull.length ∧
    parse_hex_word ((sampleFull.drop 119).take 4) = some 5284 ∧
    ∃ s' wv wr wf, decode_analog_data 7 sampleFull 1 Sniffer.init = some (s', true) ∧
      parse_hex_word ((sampleFull.drop 119).take 4) = some wv ∧
      parse_hex_word ((sampleFull.drop 123).take 4) = some wr ∧
      parse_hex_word ((sampleFull.drop 131).take 4) = some wf ∧
      (s'.pack_data_ 0).voltage = (wv : ℚ) / 100 ∧
      (s'.pack_data_ 0).remaining_cap = (wr : ℚ) / 100 ∧
      (s'.pack_data_ 0).full_cap = (wf : ℚ) / 100 ∧
      (s'.pack_data_ 0).soh = 100 ∧
      (s'.pack_data_ 0).design_cap = 100 ∧
      (s'.pack_data_ 0).cycles = 0 ∧
      (s'.pack_data_ 0).current = 0 :=
  ⟨by decide, by decide, decode_full_extended_fields 7 sampleFull 1 Sniffer.init (by decide)
    (by decide) (by decide) (by decide) 0 (by decide)⟩

/-- C7: for every two valid frames `F1` and `F2` (start marker first, end marker
last, neither marker in between, more than 10 and at most `MAX_FRAME_SIZE` bytes),
the Framer fed `F1` and then `F2` from an empty buffer emits exactly the two frames
`F1` and `F2`, in this order, and ends with an empty buffer. -/
theorem framer_two_frames (MAX_FRAME_SIZE : Nat) (F1 F2 : List Nat)
    (h1 : ValidFrame MAX_FRAME_SIZE F1) (h2 : ValidFrame MAX_FRAME_SIZE F2) :
    framer_run MAX_FRAME_SIZE [] (F1 ++ F2) = ([], [F1, F2]) := by
  rw [framer_run_append, framer_run_frame MAX_FRAME_SIZE [] F1 h1,
    framer_run_frame MAX_FRAME_SIZE [] F2 h2]
  rfl

set_option maxRecDepth 100000 in
/-- C7 at the two full sample frames for packs 1 and 2, with a frame size limit
of 256. -/
theorem framer_two_frames_witness :
    (ValidFrame 256 sampleFull ∧ ValidFrame 256 sampleFull2) ∧
    framer_run 256 [] (sampleFull ++ sampleFull2) = ([], [sampleFull, sampleFull2]) :=
  ⟨⟨by unfold ValidFrame; decide, by unfold ValidFrame; decide⟩,
    framer_two_frames 256 sampleFull sampleFull2 (by unfold ValidFrame; decide)
      (by unfold ValidFrame; decide)⟩

/-- C8: for every stream made of the start marker followed by `MAX_FRAME_SIZE + 1`
bytes none of which is the end marker or a start marker, the Framer started from an
empty buffer emits no frame and ends with an empty buffer. -/
theorem framer_oversize_discard (MAX_FRAME_SIZE : Nat) (bs : List Nat)
    (hlen : bs.length = MAX_FRAME_SIZE + 1)
    (h : ∀ b ∈ bs, b ≠ FRAME_START ∧ b ≠ FRAME_END) :
    framer_run MAX_FRAME_SIZE [] (FRAME_START :: bs) = ([], []) := by
  have hne : bs ≠ [] := by
    intro e
    rw [e] at hlen
    simp at hlen
  simp only [framer_run, framer_byte_start]
  rw [framer_run_oversize MAX_FRAME_SIZE bs [FRAME_START] (by simp) h hne
    (by simp only [List.length_singleton]; omega)]
  rfl

/-- C8 with a frame size limit of 16 and 17 characters 0 after the start marker. -/
theorem framer_oversize_discard_witness :
    (List.replicate 17 48).length = 16 + 1 ∧
    framer_run 16 [] (FRAME_START :: List.replicate 17 48) = ([], []) :=
  ⟨by decide, framer_oversize_discard 16 (List.replicate 17 48) (by decide) (by decide)⟩


/-- C9: for every four bytes, `parse_hex_word` returns `(highByte << 8) | lowByte`
where `lowByte = 16 * nibble c0 + nibble c1` comes from characters 0 and 1 and
`highByte = 16 * nibble c2 + nibble c3` from characters 2 and 3, the nibble being
`hex_char_to_byte`; the result is below `2^16`. -/
theorem parse_hex_word_little_endian_pairs (c0 c1 c2 c3 : Nat) :
    parse_hex_word [c0, c1, c2, c3] =
      some (((16 * hex_char_to_byte c2 + hex_char_to_byte c3) <<< 8) |||
        (16 * hex_char_to_byte c0 + hex_char_to_byte c1)) ∧
    (((16 * hex_char_to_byte c2 + hex_char_to_byte c3) <<< 8) |||
        (16 * hex_char_to_byte c0 + hex_char_to_byte c1)) < 2 ^ 16 := by
  have h0 := hex_char_to_byte_lt c0
  have h1 := hex_char_to_byte_lt c1
  have e : (((16 * hex_char_to_byte c2 + hex_char_to_byte c3) <<< 8) |||
        (16 * hex_char_to_byte c0 + hex_char_to_byte c1)) = hexWord c0 c1 c2 c3 := by
    rw [byte_pair _ _ (by omega)]
    rfl
  rw [e, parse_hex_word_four]
  exact ⟨rfl, hexWord_lt c0 c1 c2 c3⟩

/-- C10: on the characters 0CF0 of the example in the documentation of
`parse_hex_word`, the function returns 0xF00C = 61452, not the 0x0CF0 = 3312 that
the documentation gives; and on 03E8 and 0BB8 it returns 59395 and 47115, not 1000
and 3000. -/
theorem parse_hex_word_doc_example :
    parse_hex_word [48, 67, 70, 48] = some 61452 ∧ (61452 : Nat) ≠ 0x0CF0 ∧
    parse_hex_word chars03E8 = some 59395 ∧ parse_hex_word chars0BB8 = some 47115 := by
  decide

/-- C11: for every string `s` of four upper-case hex digits, `parse_hex_word s` is a
word `w`, and the two hex digits of its low byte `w & 0xFF` followed by the two hex
digits of its high byte `w >> 8` are the four characters of `s`; so two such strings
with the same word are equal. -/
theorem parse_hex_word_roundtrip (s t : List Nat) (hs4 : s.length = 4) (ht4 : t.length = 4)
    (hs : ∀ c ∈ s, IsUpperHex c) (ht : ∀ c ∈ t, IsUpperHex c) :
    (∃ w, parse_hex_word s = some w ∧
      encodeByte (w &&& 0xFF) ++ encodeByte (w >>> 8) = s) ∧
    (parse_hex_word s = parse_hex_word t → s = t) := by
  obtain ⟨w, hw, hws⟩ := parse_hex_word_encode s hs4 hs
  obtain ⟨v, hv, hvt⟩ := parse_hex_word_encode t ht4 ht
  refine ⟨⟨w, hw, hws⟩, fun h => ?_⟩
  rw [hw, hv] at h
  have hwv : w = v := Option.some.inj h
  rw [← hws, ← hvt, hwv]

/-- C11 at the strings 0CF0 and 03E8. -/
theorem parse_hex_word_roundtrip_witness :
    (∃ w, parse_hex_word [48, 67, 70, 48] = some w ∧
      encodeByte (w &&& 0xFF) ++ encodeByte (w >>> 8) = [48, 67, 70, 48]) ∧
    (parse_hex_word [48, 67, 70, 48] = parse_hex_word chars03E8 →
      [48, 67, 70, 48] = chars03E8) :=
  parse_hex_word_roundtrip [48, 67, 70, 48] chars03E8 (by decide) (by decide)
    (by unfold IsUpperHex; decide) (by unfold IsUpperHex; decide)

/-- C12: for every character `c`, `hex_char_to_byte c` is below 16; it is the digit
value for 0 to 9, 10 to 15 for A to F and for a to f, the lower-case letter giving
what its upper-case letter gives, and 0 for every other character. -/
theorem hex_char_to_byte_spec (c : Nat) :
    hex_char_to_byte c < 16 ∧
    (48 ≤ c ∧ c ≤ 57 → hex_char_to_byte c = c - 48) ∧
    (65 ≤ c ∧ c ≤ 70 → hex_char_to_byte c = c - 65 + 10) ∧
    (97 ≤ c ∧ c ≤ 102 → hex_char_to_byte c = c - 97 + 10) ∧
    (65 ≤ c ∧ c ≤ 70 → hex_char_to_byte (c + 32) = hex_char_to_byte c) ∧
    (¬ (48 ≤ c ∧ c ≤ 57) ∧ ¬ (65 ≤ c ∧ c ≤ 70) ∧ ¬ (97 ≤ c ∧ c ≤ 102) →
      hex_char_to_byte c = 0) := by
  refine ⟨hex_char_to_byte_lt c, ?_, ?_, ?_, ?_, ?_⟩
  · intro h
    unfold hex_char_to_byte
    rw [if_pos h]
  · intro h
    unfold hex_char_to_byte
    split_ifs <;> omega
  · intro h
    unfold hex_char_to_byte
    split_ifs <;> omega
  · intro h
    unfold hex_char_to_byte
    split_ifs <;> omega
  · intro h
    unfold hex_char_to_byte
    split_ifs <;> omega

/-- C13: for every frame with the tag 1096 and at least 165 bytes, every pack
address in 1..8 and every initial state, decoding the frame twice in succession
with the same clock reading succeeds both times and leaves the PackStore after the
second decode equal to the PackStore after the first. -/
theorem decode_full_idempotent (now : Nat) (frame : List Nat) (a : Nat) (s : Sniffer)
    (htag : (frame.drop 9).take 4 = [49, 48, 57, 54]) (hlen : 165 ≤ frame.length)
    (h1 : 1 ≤ a) (h8 : a ≤ 8) :
    ∃ s1 s2, decode_analog_data now frame a s = some (s1, true) ∧
      decode_analog_data now frame a s1 = some (s2, true) ∧
      s2.pack_data_ = s1.pack_data_ := by
  have hidx : (a + 255) % 256 < NUM_PACKS := by
    show (a + 255) % 256 < 8
    omega
  have htag2 := (hasTag_iff_slice frame (by omega)).mpr htag
  obtain ⟨m, M, temps, cells, hdec, a1, a2, a3, a4⟩ :=
    decode_full_eq now frame a s hlen hidx htag2
  obtain ⟨m2, M2, temps2, cells2, hdec2, b1, b2, b3, b4⟩ :=
    decode_full_eq now frame a
      (s.written ⟨(a + 255) % 256, hidx⟩
        (fullPack now frame (s.pack_data_ ⟨(a + 255) % 256, hidx⟩) m M) temps cells)
      hlen hidx htag2
  refine ⟨_, _, hdec, hdec2, ?_⟩
  rw [← least_unique (cellsOf frame) m m2 a1 a2 b1 b2,
    ← greatest_unique (cellsOf frame) M M2 a3 a4 b3 b4]
  simp only [Sniffer.written, Function.update_same, Function.update_idem]
  exact congrArg (Function.update s.pack_data_ _) (fullPack_old now frame _ _ m M)

set_option maxRecDepth 100000 in
/-- C13 at the full sample frame, decoded twice for pack 1 from the initial state. -/
theorem decode_full_idempotent_witness :
    165 ≤ sampleFull.length ∧
    ∃ s1 s2, decode_analog_data 7 sampleFull 1 Sniffer.init = some (s1, true) ∧
      decode_analog_data 7 sampleFull 1 s1 = some (s2, true) ∧
      s2.pack_data_ = s1.pack_data_ :=
  ⟨by decide, decode_full_idempotent 7 sampleFull 1 Sniffer.init (by decide) (by decide)
    (by decide) (by decide)⟩

set_option maxRecDepth 100000 in
/-- C14 as stated fails in float32 arithmetic: the 135-byte sample frame with cell
fields E40C (3300), decoded for pack 1, stores sixteen cell voltages
13841203/4194304, the float32 nearest to 3.3, and `min_cell_v` equal to them, but
`avg_cell_v = 13841201/4194304`, which is below `min_cell_v` and is not the sum of
the sixteen values over 16. -/
theorem decode_stats_float32_counterexample :
    ∃ s', decode_analog_data_fl f32 7 samplePartial 1 sampleState = some (s', true) ∧
      (∀ i, (s'.pack_data_ 0).cell_voltages i = 13841203 / 4194304) ∧
      (s'.pack_data_ 0).min_cell_v = 13841203 / 4194304 ∧
      (s'.pack_data_ 0).avg_cell_v = 13841201 / 4194304 ∧
      (s'.pack_data_ 0).avg_cell_v < (s'.pack_data_ 0).min_cell_v ∧
      (s'.pack_data_ 0).avg_cell_v ≠
        (∑ i : Fin NUM_CELLS, (s'.pack_data_ 0).cell_voltages i) / 16 := by
  have hidx : (1 + 255) % 256 < NUM_PACKS := by decide
  have htag : HasTag1096 samplePartial := by
    unfold HasTag1096
    decide
  obtain ⟨pack, m, M, temps, cells, hdec, hpc, -, ⟨i0, hi0⟩, -, -⟩ :=
    decode_some_fl f32 7 samplePartial 1 sampleState (by decide) hidx htag
  have hv : ∀ i, cellsOf_fl f32 samplePartial i = 13841203 / 4194304 := by
    decide!
  have hcells : ∀ i, pack.cell_voltages i = 13841203 / 4194304 := by
    intro i
    rw [hpc]
    exact hv i
  obtain ⟨f1, f2, -, f4, -⟩ := statsPack_fl_fields f32 pack m M
  have hmin : (statsPack_fl f32 pack m M).min_cell_v = 13841203 / 4194304 := by
    rw [f2, hi0, hcells i0]
  have havg : (statsPack_fl f32 pack m M).avg_cell_v = 13841201 / 4194304 := by
    rw [f4, runningSum_sample pack.cell_voltages hcells]
    decide!
  refine ⟨_, hdec, ?_, ?_, ?_, ?_, ?_⟩
  · intro i
    show (statsPack_fl f32 pack m M).cell_voltages i = 13841203 / 4194304
    rw [f1]
    exact hcells i
  · exact hmin
  · exact havg
  · show (statsPack_fl f32 pack m M).avg_cell_v < (statsPack_fl f32 pack m M).min_cell_v
    rw [havg, hmin]
    norm_num
  · show (statsPack_fl f32 pack m M).avg_cell_v ≠
      (∑ i : Fin NUM_CELLS, (statsPack_fl f32 pack m M).cell_voltages i) / 16
    rw [havg, f1, sum_cells_const _ _ hcells]
    norm_num

/-- C14, amended: after every decode that returns `true`, by the full path or the
partial fallback, for a pack address `a` in 1..8, computed in float32 arithmetic,
slot `a - 1` has `min_cell_v` the least and `max_cell_v` the greatest of its 16 stored
cell voltages, so `min_cell_v ≤ max_cell_v`; `delta_cell_v` is the float32 difference
`max_cell_v - min_cell_v` and is `≥ 0`; and `avg_cell_v` is the float32 running sum
of the 16 values divided by 16. -/
theorem decode_stats_float32 (now : Nat) (frame : List Nat) (a : Nat) (s : Sniffer)
    (h1 : 1 ≤ a) (h8 : a ≤ 8)
    (hret : (decode_analog_data_fl f32 now frame a s).map Prod.snd = some true)
    (p : Fin NUM_PACKS) (hp : p.val = a - 1) :
    ∃ s', decode_analog_data_fl f32 now frame a s = some (s', true) ∧
      (∀ i, (s'.pack_data_ p).min_cell_v ≤ (s'.pack_data_ p).cell_voltages i) ∧
      (∃ i, (s'.pack_data_ p).min_cell_v = (s'.pack_data_ p).cell_voltages i) ∧
      (∀ i, (s'.pack_data_ p).cell_voltages i ≤ (s'.pack_data_ p).max_cell_v) ∧
      (∃ i, (s'.pack_data_ p).max_cell_v = (s'.pack_data_ p).cell_voltages i) ∧
      (s'.pack_data_ p).min_cell_v ≤ (s'.pack_data_ p).max_cell_v ∧
      (s'.pack_data_ p).delta_cell_v =
        f32 ((s'.pack_data_ p).max_cell_v - (s'.pack_data_ p).min_cell_v) ∧
      0 ≤ (s'.pack_data_ p).delta_cell_v ∧
      (s'.pack_data_ p).avg_cell_v =
        f32 (runningSum f32 (s'.pack_data_ p).cell_voltages NUM_CELLS / 16) := by
  obtain ⟨⟨s', b⟩, hdec, hb⟩ := Option.map_eq_some'.mp hret
  simp only at hb
  subst hb
  exact ⟨s', hdec, decode_stats_fl f32 f32_nonneg now frame a s s' h1 h8 hdec p hp⟩

set_option maxRecDepth 100000 in
/-- C14, amended, at the full sample frame decoded for pack 1 in float32 arithmetic. -/
theorem decode_stats_float32_witness :
    (decode_analog_data_fl f32 7 sampleFull 1 sampleState).map Prod.snd = some true ∧
    ∃ s', decode_analog_data_fl f32 7 sampleFull 1 sampleState = some (s', true) ∧
      (s'.pack_data_ 0).min_cell_v ≤ (s'.pack_data_ 0).max_cell_v ∧
      0 ≤ (s'.pack_data_ 0).delta_cell_v := by
  refine ⟨by decide!, ?_⟩
  obtain ⟨s', h, -, -, -, -, hmM, -, hd, -⟩ :=
    decode_stats_float32 7 sampleFull 1 sampleState (by decide) (by decide) (by decide!)
      0 (by decide)
  exact ⟨s', h, hmM, hd⟩

set_option maxRecDepth 100000 in
/-- C15 as stated fails: the full sample frame with 00FF in the state-of-charge
field at offsets 127..130, decoded for pack 1, stores `soc = 255`, above 100. -/
theorem decode_soc_counterexample :
    165 ≤ sampleFullSocFF.length ∧
    (sampleFullSocFF.drop 127).take 4 = [48, 48, 70, 70] ∧
    ∃ s', decode_analog_data 7 sampleFullSocFF 1 Sniffer.init = some (s', true) ∧
      (s'.pack_data_ 0).soc = 255 ∧ ¬ (s'.pack_data_ 0).soc ≤ 100 := by
  have hlen : 165 ≤ sampleFullSocFF.length := by decide
  have hidx : (1 + 255) % 256 < NUM_PACKS := by decide
  have htag : HasTag1096 sampleFullSocFF := by
    unfold HasTag1096
    decide
  obtain ⟨m, M, temps, cells, hdec, -⟩ :=
    decode_full_eq 7 sampleFullSocFF 1 Sniffer.init hlen hidx htag
  have hsoc : (wordAt sampleFullSocFF 127 >>> 8) &&& 0xFF = 255 := by decide
  refine ⟨hlen, by decide, _, hdec, ?_, ?_⟩
  · exact hsoc
  · show ¬ (wordAt sampleFullSocFF 127 >>> 8) &&& 0xFF ≤ 100
    rw [hsoc]
    decide

/-- C15, amended: after every full decode of a frame with the tag 1096 and at least
165 bytes for a pack address in 1..8, the stored `soc` is the upper byte of the
word parsed at offsets 127..130, not clamped: an integer in the range 0..255. -/
theorem decode_soc_upper_byte (now : Nat) (frame : List Nat) (a : Nat) (s : Sniffer)
    (htag : (frame.drop 9).take 4 = [49, 48, 57, 54]) (hlen : 165 ≤ frame.length)
    (h1 : 1 ≤ a) (h8 : a ≤ 8) (p : Fin NUM_PACKS) (hp : p.val = a - 1) :
    ∃ s' w, decode_analog_data now frame a s = some (s', true) ∧
      parse_hex_word ((frame.drop 127).take 4) = some w ∧
      (s'.pack_data_ p).soc = (w >>> 8) &&& 0xFF ∧
      (s'.pack_data_ p).soc = w / 256 ∧
      (s'.pack_data_ p).soc ≤ 255 := by
  have hidx : (a + 255) % 256 < NUM_PACKS := by
    show (a + 255) % 256 < 8
    omega
  have htag2 := (hasTag_iff_slice frame (by omega)).mpr htag
  obtain ⟨m, M, temps, cells, hdec, -⟩ := decode_full_eq now frame a s hlen hidx htag2
  rw [idx_fin_eq a h1 h8 p hp hidx] at hdec
  obtain ⟨-, -, f3, -⟩ := fullPack_fields now frame (s.pack_data_ p) m M
  obtain ⟨u1, u2⟩ := upper_byte (wordAt frame 127) (wordAt_lt frame 127)
  refine ⟨_, wordAt frame 127, hdec, parse_hex_word_slice frame 127 (by omega), ?_⟩
  rw [written_get, f3]
  exact ⟨rfl, u1, by rw [u1]; exact u2⟩

set_option maxRecDepth 100000 in
/-- C15, amended, at the full sample frame with 00FF in the state-of-charge field. -/
theorem decode_soc_upper_byte_witness :
    165 ≤ sampleFullSocFF.length ∧
    ∃ s' w, decode_analog_data 7 sampleFullSocFF 1 Sniffer.init = some (s', true) ∧
      parse_hex_word ((sampleFullSocFF.drop 127).take 4) = some w ∧
      (s'.pack_data_ 0).soc = (w >>> 8) &&& 0xFF ∧
      (s'.pack_data_ 0).soc = w / 256 ∧
      (s'.pack_data_ 0).soc ≤ 255 :=
  ⟨by decide, decode_soc_upper_byte 7 sampleFullSocFF 1 Sniffer.init (by decide) (by decide)
    (by decide) (by decide) 0 (by decide)⟩

set_option maxRecDepth 100000 in
/-- C16 on the code: the 135-byte sample frame decoded for pack 1 at clock reading 7,
into a state whose slot 0 has `last_update = 3`, returns `true` by the partial
fallback and leaves `last_update = 3`; the full sample frame decoded in the same
state at the same clock reading sets `last_update = 7`. -/
theorem decode_partial_last_update :
    (sampleState.pack_data_ 0).last_update = 3 ∧
    (∃ s', decode_analog_data 7 samplePartial 1 sampleState = some (s', true) ∧
      (s'.pack_data_ 0).last_update = 3 ∧ (s'.pack_data_ 0).last_update ≠ 7) ∧
    (∃ s', decode_analog_data 7 sampleFull 1 sampleState = some (s', true) ∧
      (s'.pack_data_ 0).last_update = 7) := by
  have hidx : (1 + 255) % 256 < NUM_PACKS := by decide
  have hold : (sampleState.pack_data_ 0).last_update = 3 := by decide
  have htag : HasTag1096 samplePartial := by
    unfold HasTag1096
    decide
  have htag2 : HasTag1096 sampleFull := by
    unfold HasTag1096
    decide
  obtain ⟨m, M, temps, cells, hdec, -⟩ :=
    decode_partial_eq 7 samplePartial 1 sampleState (by decide) (by decide) hidx htag
  obtain ⟨m2, M2, temps2, cells2, hdec2, -⟩ :=
    decode_full_eq 7 sampleFull 1 sampleState (by decide) hidx htag2
  refine ⟨hold, ⟨_, hdec, ?_, ?_⟩, ⟨_, hdec2, rfl⟩⟩
  · exact hold
  · show (sampleState.pack_data_ 0).last_update ≠ 7
    rw [hold]
    decide

/-- C17: for every byte sequence `P` and every valid frame `F`, the Framer started
from an empty buffer and fed `P` and then `F` emits exactly the frames it emits on
`P`, followed by the single frame `F`, and ends with an empty buffer: whatever `P`
left in the buffer is discarded at the start marker of `F`. -/
theorem framer_resynchronises (MAX_FRAME_SIZE : Nat) (P F : List Nat)
    (hF : ValidFrame MAX_FRAME_SIZE F) :
    framer_run MAX_FRAME_SIZE [] (P ++ F) = ([], (framer_run MAX_FRAME_SIZE [] P).2 ++ [F]) := by
  rw [framer_run_append, framer_run_frame MAX_FRAME_SIZE _ F hF]

set_option maxRecDepth 100000 in
/-- C17 with a frame size limit of 256, the full sample frame, and before it a stray
character, a stray end marker and an unfinished frame: only the sample frame is
emitted. -/
theorem framer_resynchronises_witness :
    ValidFrame 256 sampleFull ∧
    (framer_run 256 [] sampleNoise).1 = [126, 50, 53, 48, 49] ∧
    framer_run 256 [] (sampleNoise ++ sampleFull) =
      ([], (framer_run 256 [] sampleNoise).2 ++ [sampleFull]) :=
  ⟨by unfold ValidFrame; decide, by decide,
    framer_resynchronises 256 sampleNoise sampleFull (by unfold ValidFrame; decide)⟩

/-- C18: for every frame and every state, `process_frame` returns a state in which
every slot other than the one for the decoded address `a`, the slot of index
`a - 1`, is what it was before the call. -/
theorem process_frame_other_slots (now : Nat) (frame : List Nat) (s : Sniffer) :
    ∃ s', process_frame now frame s = some s' ∧
      ∀ q : Fin NUM_PACKS, q.val + 1 ≠ frameAddr frame → s'.pack_data_ q = s.pack_data_ q :=
  process_frame_total now frame s

set_option maxRecDepth 100000 in
/-- C19: for every byte sequence given as a frame, `process_frame` returns a state,
and for every pack address `decode_analog_data` returns a result: no read of
`frame[k]` and no index into the pack, cell or temperature arrays is out of range.
Address 0 is rejected. The result depends on the frame only through its length and
its bytes at offsets up to 134, and up to 114 when it is shorter than 165 bytes; the
byte at offset 134 of a 165-byte frame does reach the result. -/
theorem reads_in_bounds (now : Nat) (frame : List Nat) (s : Sniffer) :
    (∃ s', process_frame now frame s = some s') ∧
    (∀ a, ∃ r, decode_analog_data now frame a s = some r) ∧
    decode_analog_data now frame 0 s = some (s, false) ∧
    (∀ g a, g.length = frame.length → g.take 135 = frame.take 135 →
      decode_analog_data now g a s = decode_analog_data now frame a s) ∧
    (frame.length < 165 → ∀ g a, g.length = frame.length → g.take 115 = frame.take 115 →
      decode_analog_data now g a s = decode_analog_data now frame a s) ∧
    (sampleFull134.length = 165 ∧ sampleFull134.take 134 = sampleFull.take 134 ∧
      ∃ s1 s2, decode_analog_data now sampleFull 1 s = some (s1, true) ∧
        decode_analog_data now sampleFull134 1 s = some (s2, true) ∧
        (s1.pack_data_ 0).full_cap ≠ (s2.pack_data_ 0).full_cap) := by
  refine ⟨?_, ?_, ?_, ?_, ?_, ?_⟩
  · obtain ⟨s', h, -⟩ := process_frame_total now frame s
    exact ⟨s', h⟩
  · intro a
    rcases decode_total now frame a s with ⟨s', h, -⟩ | h
    · exact ⟨_, h⟩
    · exact ⟨_, h⟩
  · exact decode_reject now frame 0 s (Or.inr (Or.inl (by decide)))
  · intro g a hlen h
    exact decode_footprint now frame g a s 135 (by omega) (fun _ => le_refl _) hlen h
  · intro h165 g a hlen h
    exact decode_footprint now frame g a s 115 (le_refl _) (fun h => by omega) hlen h
  · have hidx : (1 + 255) % 256 < NUM_PACKS := by decide
    have htag : HasTag1096 sampleFull := by
      unfold HasTag1096
      decide
    have htag2 : HasTag1096 sampleFull134 := by
      unfold HasTag1096
      decide
    obtain ⟨m, M, temps, cells, hdec, -⟩ :=
      decode_full_eq now sampleFull 1 s (by decide) hidx htag
    obtain ⟨m2, M2, temps2, cells2, hdec2, -⟩ :=
      decode_full_eq now sampleFull134 1 s (by decide) hidx htag2
    refine ⟨by decide, by decide, _, _, hdec, hdec2, ?_⟩
    show ((wordAt sampleFull 131 : ℕ) : ℚ) / 100 ≠ ((wordAt sampleFull134 131 : ℕ) : ℚ) / 100
    have e1 : wordAt sampleFull 131 = 13056 := by decide
    have e2 : wordAt sampleFull134 131 = 13312 := by decide
    rw [e1, e2]
    norm_num

/-- C20: with a frame size limit of at least 1, the Framer started from an empty
buffer has, after any byte stream, a buffer that is empty or begins with the start
marker, holds no other start marker and no end marker and has at most
`MAX_FRAME_SIZE` bytes; and every frame it emitted begins with the start marker,
ends with the end marker, holds neither marker in between, and has more than 10 and
at most `MAX_FRAME_SIZE + 1` bytes. -/
theorem framer_invariant (MAX_FRAME_SIZE : Nat) (hM : 1 ≤ MAX_FRAME_SIZE) (stream : List Nat) :
    BufferInv MAX_FRAME_SIZE (framer_run MAX_FRAME_SIZE [] stream).1 ∧
    ∀ f ∈ (framer_run MAX_FRAME_SIZE [] stream).2,
      f.head? = some FRAME_START ∧ f.getLast? = some FRAME_END ∧
      (∀ b ∈ f.tail.dropLast, b ≠ FRAME_START ∧ b ≠ FRAME_END) ∧
      10 < f.length ∧ f.length ≤ MAX_FRAME_SIZE + 1 :=
  framer_run_inv MAX_FRAME_SIZE hM stream [] (Or.inl rfl)

set_option maxRecDepth 100000 in
/-- C20 with a frame size limit of 256 on the stream of the noise bytes, the full
sample frame and the noise bytes again. -/
theorem framer_invariant_witness :
    (framer_run 256 [] (sampleNoise ++ sampleFull ++ sampleNoise)).1 = [126, 50, 53, 48, 49] ∧
    BufferInv 256 (framer_run 256 [] (sampleNoise ++ sampleFull ++ sampleNoise)).1 ∧
    ∀ f ∈ (framer_run 256 [] (sampleNoise ++ sampleFull ++ sampleNoise)).2,
      f.head? = some FRAME_START ∧ f.getLast? = some FRAME_END ∧
      (∀ b ∈ f.tail.dropLast, b ≠ FRAME_START ∧ b ≠ FRAME_END) ∧
      10 < f.length ∧ f.length ≤ 256 + 1 :=
  ⟨by decide, framer_invariant 256 (by decide) (sampleNoise ++ sampleFull ++ sampleNoise)⟩

end PaceBMSSniffer
